import Mathlib

/-!
# Verification of the directory-scanner traversal core

Shallow embedding of the traversal engine of `directory_scanner.py`
(class `DirectoryScanner`): the inclusion filter `should_include_file`,
the recursive walker `scan_recursive`, the scan driver
`scan_directory` / `start_scan`, and the export-record builders of
`export_to_csv` / `export_to_json`.

Modelling conventions:
* A filesystem is an inductive tree `FSNode`.  Names returned by
  `os.listdir` are atomic (a real directory listing never contains the
  path separator), so relative paths are represented as their segment
  lists; `os.path.join(relative_path, item)` on such names appends one
  segment.  File sizes and modification times are carried on the nodes
  as the display strings that `get_file_size` / `get_modification_time`
  would produce (their formatting is environment interaction, outside
  every claim).
* Strings are treated at Python's code-point level; `str.lower` is
  modelled on the ASCII range.
* The cooperative stop flag `self.scan_stopped` is written once by the
  UI thread and only ever polled by the walker.  A run is therefore
  determined by the index of the poll at which the flag is first seen
  set: `cancelAt = some k` means polls `0, …, k-1` read `false` and
  every later poll reads `true`; `cancelAt = none` is an uncancelled
  run.
* GUI-widget mutations (`self.tree.insert/delete`, progress-bar calls)
  are not modelled; the data mirror `self.directory_data`,
  `self.file_stats`, the throttled progress updates, the per-file
  current-file updates and the diagnostic log are.
* Per-entry access failures (`PermissionError` on `os.path.isdir`,
  `os.listdir` failing below the root) are recovered locally by the
  code and contribute nothing; the tree model has no failing nodes, so
  those handlers are exercised only in the root-is-a-file case, which
  is modelled (`NotADirectoryError` from `os.listdir` on the root).
-/

namespace DirScan

/-! ## Python string primitives -/

/-- `name.startswith('.')` on a Python string. -/
def startsWithDot (s : String) : Bool :=
  match s.data with
  | [] => false
  | c :: _ => c = '.'

/-- ASCII case folding of one character (model of `str.lower` per char). -/
def lowerChar (c : Char) : Char :=
  if 'A' ≤ c ∧ c ≤ 'Z' then Char.ofNat (c.toNat + 32) else c

/-- `s.lower()` (ASCII model). -/
def pyLower (s : String) : String :=
  String.mk (s.data.map lowerChar)

/-- Python whitespace for `str.strip`. -/
def isPySpace (c : Char) : Bool :=
  c = ' ' ∨ c = '\t' ∨ c = '\n' ∨ c = '\r' ∨ c = '\x0b' ∨ c = '\x0c'

/-- `s.strip()`. -/
def pyStrip (s : String) : String :=
  String.mk (((s.data.dropWhile isPySpace).reverse.dropWhile isPySpace).reverse)

/-- Splitting on a separator character; `"".split(",") = [""]` as in Python. -/
def splitCharAux (sep : Char) : List Char → List (List Char)
  | [] => [[]]
  | c :: cs =>
    let r := splitCharAux sep cs
    if c = sep then [] :: r
    else
      match r with
      | h :: t => (c :: h) :: t
      | [] => [[c]]

/-- `s.split(",")`. -/
def splitOnComma (s : String) : List String :=
  (splitCharAux ',' s.data).map String.mk

/-- Splits a character list at its last `'.'`: returns
`(before, fromDot)` with `fromDot = '.' :: after` where `after` is
dot-free, or `none` if there is no dot. -/
def lastDotSplit : List Char → Option (List Char × List Char)
  | [] => none
  | c :: cs =>
    match lastDotSplit cs with
    | some (b, d) => some (c :: b, d)
    | none => if c = '.' then some ([], '.' :: cs) else none

/-- `pathlib.Path(p).suffix` for a final path component `name`:
the part of `name` from its last dot, provided that dot is neither the
first nor the last character (CPython: `0 < i < len(name) - 1`). -/
def pathSuffix (name : String) : String :=
  match lastDotSplit name.data with
  | some (b, d) => if b ≠ [] ∧ 1 < d.length then String.mk d else ""
  | none => ""

/-- `s[1:]` for a Python string. -/
def dropFirst (s : String) : String :=
  String.mk s.data.tail

/-- Code-point comparison of Python strings (`a <= b`). -/
def charListLe : List Char → List Char → Bool
  | [], _ => true
  | _ :: _, [] => false
  | a :: as, b :: bs =>
    if a.toNat < b.toNat then true
    else if b.toNat < a.toNat then false
    else charListLe as bs

/-- `a <= b` on Python strings. -/
def strLe (a b : String) : Bool :=
  charListLe a.data b.data

/-! ## Data model -/

/-- The `'类型'` tag of a record in `self.directory_data`:
`"文件"` (file) or `"文件夹"` (directory). -/
inductive EntryKind where
  | file
  | dir
deriving DecidableEq, Repr

/-- One record of `self.directory_data`
(`{"路径": …, "名称": …, "类型": …, "大小": …, "修改时间": …}`);
`path` holds the segments of the root-relative path `路径`. -/
structure Entry where
  path : List String
  name : String
  kind : EntryKind
  size : String
  mtime : String
deriving DecidableEq, Repr

/-- A filesystem tree.  File nodes carry the display strings that
`get_file_size` and `get_modification_time` return for them; directory
nodes carry their modification-time string and their listing. -/
inductive FSNode where
  | file (name size mtime : String)
  | dir (name mtime : String) (children : List FSNode)

/-- The scan settings read at the start of a scan:
`self.max_depth`, `self.include_hidden`, `self.file_extensions`,
`self.show_empty_folders`. -/
structure ScanConfig where
  maxDepth : Nat
  includeHidden : Bool
  fileExtensions : String
  showEmptyFolders : Bool

/-- The mutable scan-session state:
`directory_data` and `file_stats` mirror the fields of the same name;
`progress` records each fired throttled progress update
(file count, folder count); `currentFile` records each current-file
update; `logs` records `add_log` diagnostics issued by the walker;
`polls` counts the reads of `self.scan_stopped` so far. -/
structure ScanState where
  directory_data : List Entry
  file_stats : List (String × Nat)
  progress : List (Nat × Nat)
  currentFile : List (List String)
  logs : List String
  polls : Nat
deriving DecidableEq, Repr

/-- The value `self.scan_stopped` yields at the `n`-th poll of a run
in which the stop request lands just before poll `cancelAt`. -/
def flagAt (cancelAt : Option Nat) (n : Nat) : Bool :=
  match cancelAt with
  | none => false
  | some k => k ≤ n

/-- One read of `self.scan_stopped`. -/
def poll (cancelAt : Option Nat) (s : ScanState) : Bool × ScanState :=
  (flagAt cancelAt s.polls, { s with polls := s.polls + 1 })

/-! ## Statistics dictionary (`self.file_stats`) -/

/-- `self.file_stats.get(k, 0)`. -/
def statsGet : List (String × Nat) → String → Nat
  | [], _ => 0
  | (k', v) :: rest, k => if k' = k then v else statsGet rest k

/-- `self.file_stats[k] = self.file_stats.get(k, 0) + 1`. -/
def statsInc : List (String × Nat) → String → List (String × Nat)
  | [], k => [(k, 1)]
  | (k', v) :: rest, k =>
    if k' = k then (k', v + 1) :: rest else (k', v) :: statsInc rest k

/-- Number of `"文件"`-kind records in a data list. -/
def countFiles (l : List Entry) : Nat :=
  l.countP (fun e => e.kind = EntryKind.file)

/-- Number of `"文件夹"`-kind records in a data list. -/
def countFolders (l : List Entry) : Nat :=
  l.countP (fun e => e.kind = EntryKind.dir)

/-- Sum of the per-extension counters: every `file_stats` bucket except
the running totals `"文件"` and `"文件夹"` (extension keys and the
`"无扩展名"` no-extension bucket). -/
def extSum (st : List (String × Nat)) : Nat :=
  (st.filter (fun p => ¬(p.1 = "文件" ∨ p.1 = "文件夹"))).foldr
    (fun p acc => p.2 + acc) 0

/-! ## Inclusion filter (`should_include_file`, lines 595–624) -/

/-- The allow-list built from the comma-split filter tokens: each
stripped, lower-cased, non-empty token contributes its dotted and
undotted forms. -/
def buildAllowed (tokens : List String) : List String :=
  tokens.foldl
    (fun acc tok =>
      let e := pyLower (pyStrip tok)
      if e = "" then acc
      else if startsWithDot e then acc ++ [e, dropFirst e]
      else acc ++ ["." ++ e, e])
    []

/-- `should_include_file(self, file_path, file_name)`.  The extension is
computed from the final path component, so only the file name matters. -/
def should_include_file (cfg : ScanConfig) (fileName : String) : Bool :=
  if !cfg.includeHidden && startsWithDot fileName then false
  else
    let extensions := pyStrip cfg.fileExtensions
    if extensions ≠ "" ∧ extensions ≠ "*" then
      let file_ext := pyLower (pathSuffix fileName)
      let file_ext_no_dot :=
        if startsWithDot file_ext then dropFirst file_ext else file_ext
      let allowed_exts := buildAllowed (splitOnComma extensions)
      if allowed_exts ≠ [] ∧ ¬allowed_exts.contains file_ext ∧
          ¬allowed_exts.contains file_ext_no_dot then false
      else true
    else true

/-! ## Traversal engine (`scan_recursive`, lines 728–858)

`scan_recursive(path, parent_item, relative_path, current_depth)` is
embedded with `fuel = max_depth - current_depth` as the structural
argument: the Python guard `current_depth >= self.max_depth.get()` is
exactly `fuel = 0`, and the recursive call at `current_depth + 1`
runs at `fuel - 1`.  The walker always makes its stop-flag read before
the depth check, so the `fuel = 0` case still performs one poll. -/

/-- Name of a tree node (`os.listdir` entry). -/
def nameOf : FSNode → String
  | .file n _ _ => n
  | .dir n _ _ => n

/-- Insertion step of the name sort. -/
def insertByName (x : FSNode) : List FSNode → List FSNode
  | [] => [x]
  | y :: ys => if strLe (nameOf x) (nameOf y) then x :: y :: ys
               else y :: insertByName x ys

/-- `items.sort()`: ascending code-point order on the listed names. -/
def sortByName (l : List FSNode) : List FSNode :=
  l.foldr insertByName []

/-- The listing loop (`for item in items`): polls the stop flag per
item, then sends directories through the hidden-name check into the
`folders` list (as `(name, mtime, children)`) and files through
`should_include_file` into the `files` list (as `(name, size, mtime)`).
The loop `break` on a set flag drops the remaining items. -/
def partitionItems (cancelAt : Option Nat) (cfg : ScanConfig) :
    List FSNode → ScanState →
    List (String × String × String) × List (String × String × List FSNode) × ScanState
  | [], s => ([], [], s)
  | .dir name mtime children :: rest, s =>
    let ps := poll cancelAt s
    if ps.1 then ([], [], ps.2)
    else if !cfg.includeHidden && startsWithDot name then
      partitionItems cancelAt cfg rest ps.2
    else
      let r := partitionItems cancelAt cfg rest ps.2
      (r.1, (name, mtime, children) :: r.2.1, r.2.2)
  | .file name size mtime :: rest, s =>
    let ps := poll cancelAt s
    if ps.1 then ([], [], ps.2)
    else if should_include_file cfg name then
      let r := partitionItems cancelAt cfg rest ps.2
      ((name, size, mtime) :: r.1, r.2.1, r.2.2)
    else
      partitionItems cancelAt cfg rest ps.2

/-- Body for one qualifying file: append the record to
`directory_data`, bump the `"文件"` counter and the extension bucket,
fire the throttled progress update when the accumulated entry total is
a multiple of 10, and issue the current-file update. -/
def processFile (name size mtime : String) (relPath : List String)
    (s : ScanState) : ScanState :=
  let item_relative_path := relPath ++ [name]
  let entry : Entry := ⟨item_relative_path, name, .file, size, mtime⟩
  let s := { s with directory_data := s.directory_data ++ [entry] }
  let s := { s with file_stats := statsInc s.file_stats "文件" }
  let file_ext := pyLower (pathSuffix name)
  let bucket := if file_ext ≠ "" then file_ext else "无扩展名"
  let s := { s with file_stats := statsInc s.file_stats bucket }
  let update := (countFiles s.directory_data, countFolders s.directory_data)
  let s :=
    if s.directory_data.length % 10 = 0 then
      { s with progress := s.progress ++ [update] }
    else s
  { s with currentFile := s.currentFile ++ [item_relative_path] }

/-- The file loop (`for item, item_path in files`): polls the stop flag
before each file; returns whether at least one file was processed
(`has_valid_content` contribution). -/
def processFiles (cancelAt : Option Nat) :
    List (String × String × String) → List String → ScanState → Bool × ScanState
  | [], _, s => (false, s)
  | (name, size, mtime) :: rest, relPath, s =>
    let ps := poll cancelAt s
    if ps.1 then (false, ps.2)
    else
      let s1 := processFile name size mtime relPath ps.2
      (true, (processFiles cancelAt rest relPath s1).2)

/-- The folder loop (`for item, item_path in folders`), abstracted over
the recursive scan of a child listing: polls the stop flag before each
folder, recurses, and keeps the folder (record appended post-order,
`"文件夹"` counter bumped) exactly when the recursion reported content
or `show_empty_folders` is set.  Returns whether any folder was kept. -/
def processFolders (cancelAt : Option Nat) (cfg : ScanConfig)
    (recScan : List FSNode → List String → ScanState → Bool × ScanState) :
    List (String × String × List FSNode) → List String → ScanState → Bool × ScanState
  | [], _, s => (false, s)
  | (name, mtime, children) :: rest, relPath, s =>
    let ps := poll cancelAt s
    if ps.1 then (false, ps.2)
    else
      let item_relative_path := relPath ++ [name]
      let rc := recScan children item_relative_path ps.2
      if rc.1 || cfg.showEmptyFolders then
        let entry : Entry := ⟨item_relative_path, name, .dir, "-", mtime⟩
        let s2 := { rc.2 with
          directory_data := rc.2.directory_data ++ [entry] }
        let s3 := { s2 with file_stats := statsInc s2.file_stats "文件夹" }
        (true, (processFolders cancelAt cfg recScan rest relPath s3).2)
      else
        processFolders cancelAt cfg recScan rest relPath rc.2

/-- `scan_recursive` on a directory listing, driven by remaining fuel
`max_depth - current_depth`.  Returns `has_valid_content` and the
updated state. -/
def scanDir (cancelAt : Option Nat) (cfg : ScanConfig) :
    Nat → List FSNode → List String → ScanState → Bool × ScanState
  | 0, _, _, s =>
    -- one stop-flag read, then the depth guard fires (or the flag was set)
    (false, (poll cancelAt s).2)
  | fuel + 1, children, relPath, s =>
    let ps := poll cancelAt s
    if ps.1 then (false, ps.2)
    else
      let pr := partitionItems cancelAt cfg (sortByName children) ps.2
      let fr := processFiles cancelAt pr.1 relPath pr.2.2
      let dr := processFolders cancelAt cfg
        (fun ch rp st => scanDir cancelAt cfg fuel ch rp st) pr.2.1 relPath fr.2
      (fr.1 || dr.1, dr.2)

/-- The top-level `scan_recursive(root_path, root_item, "", 0)` call.
On a directory root it runs `scanDir` with full fuel.  If the root
path names a file, `os.listdir` raises `NotADirectoryError`, which the
walker's blanket handler logs as an error diagnostic (line 855),
after the stop-flag read and the depth guard. -/
def scanRoot (cancelAt : Option Nat) (cfg : ScanConfig) (root : FSNode)
    (s : ScanState) : Bool × ScanState :=
  match root with
  | .dir _ _ children => scanDir cancelAt cfg cfg.maxDepth children [] s
  | .file _ _ _ =>
    let ps := poll cancelAt s
    if ps.1 then (false, ps.2)
    else if cfg.maxDepth = 0 then (false, ps.2)
    else (false, { ps.2 with logs := ps.2.logs ++ ["扫描目录时出错"] })

/-- Everything `scan_directory` hands back: the accumulated data and
statistics, the fired callbacks, whether the `if not self.scan_stopped`
check at the end saw the stop flag, and — when it did not — the
completion report with the final file/folder counts (lines 689–694,
fired regardless of the progress throttle). -/
structure ScanResult where
  data : List Entry
  stats : List (String × Nat)
  progress : List (Nat × Nat)
  currentFile : List (List String)
  logs : List String
  polls : Nat
  wasCancelled : Bool
  finalReport : Option (Nat × Nat)
deriving DecidableEq, Repr

/-- `scan_directory` (lines 675–726): runs the recursive walk from a
fresh state and packages the outcome. -/
def scan_directory (cancelAt : Option Nat) (cfg : ScanConfig)
    (root : FSNode) : ScanResult :=
  let s0 : ScanState := ⟨[], [], [], [], [], 0⟩
  let (_, s) := scanRoot cancelAt cfg root s0
  let stopped := flagAt cancelAt s.polls
  { data := s.directory_data,
    stats := s.file_stats,
    progress := s.progress,
    currentFile := s.currentFile,
    logs := s.logs,
    polls := s.polls,
    wasCancelled := stopped,
    finalReport :=
      if stopped then none
      else some (countFiles s.directory_data, countFolders s.directory_data) }

/-- Outcome of `start_scan` (lines 626–673): the pre-flight
`os.path.exists` check either rejects a missing root with an error
dialog before any traversal, or the background scan runs. -/
inductive StartOutcome where
  | rootMissing
  | started (r : ScanResult)
deriving DecidableEq, Repr

/-- `start_scan`: `fs = none` models a root path that does not exist
(`os.path.exists` fails); otherwise the scan thread runs
`scan_directory` on the tree found at the root path. -/
def start_scan (fs : Option FSNode) (cfg : ScanConfig)
    (cancelAt : Option Nat) : StartOutcome :=
  match fs with
  | none => .rootMissing
  | some root => .started (scan_directory cancelAt cfg root)

/-! ## Export preparation (`export_to_csv` lines 980–1028,
`export_to_json` lines 1030–1075) -/

/-- The `self.current_directory` attribute.  It is read by both export
functions through `getattr(self, 'current_directory', '')` and is never
assigned anywhere in the program, so the attribute is absent. -/
def current_directory : Option String := none

/-- `getattr(self, 'current_directory', '')`. -/
def getattr_current_directory : String :=
  current_directory.getD ""

/-- Joining path segments back into the string form of `item['路径']`. -/
def pathToString (p : List String) : String :=
  String.intercalate "/" p

/-- `s.startswith(os.sep)` (POSIX separator). -/
def startsWithSlash (s : String) : Bool :=
  match s.data with
  | [] => false
  | c :: _ => c = '/'

/-- `s.endswith(os.sep)`. -/
def endsWithSlash (s : String) : Bool :=
  match s.data.getLast? with
  | some c => c = '/'
  | none => false

/-- `os.path.join(a, b)` (POSIX): an absolute second component wins;
otherwise a separator is inserted unless the head is empty or already
ends in one. -/
def os_path_join (a b : String) : String :=
  if startsWithSlash b then b
  else if a = "" ∨ endsWithSlash a then a ++ b
  else a ++ "/" ++ b

/-- One row of the flat export built by `export_to_csv` /
`export_to_json`: the record fields plus the `'扩展名'` and
`'完整路径'` columns. -/
structure ExportRec where
  path : String
  name : String
  kind : EntryKind
  size : String
  mtime : String
  ext : String
  fullPath : String
deriving DecidableEq, Repr

/-- The per-record body of the export loops: `export_item = item.copy()`
plus `'扩展名'` (suffix of the name, or `"-"` for an empty name) and
`'完整路径'` (`os.path.join(root_directory, item['路径'])`). -/
def exportRecord (root_directory : String) (e : Entry) : ExportRec :=
  let file_ext := if e.name ≠ "" then pyLower (pathSuffix e.name) else "-"
  let full_file_path := os_path_join root_directory (pathToString e.path)
  ⟨pathToString e.path, e.name, e.kind, e.size, e.mtime, file_ext, full_file_path⟩

/-- The `files_only_data` list both exports build: file records only,
in data order, each extended with the extra columns. -/
def files_only_data (root_directory : String) (data : List Entry) : List ExportRec :=
  (data.filter (fun e => e.kind = EntryKind.file)).map (exportRecord root_directory)

/-- Outcome of an export attempt. -/
inductive ExportOutcome where
  | noData
  | written (records : List ExportRec)
  | failed (err : String)
deriving DecidableEq, Repr

/-- The local names bound in `export_to_json` by the time
`json.dump(...)` runs (function argument, dialog result, root lookup,
the computed list, loop temporaries, the `with`-target). -/
def export_to_json_locals : List String :=
  ["self", "file_path", "root_directory", "files_only_data",
   "item", "file_ext", "full_file_path", "export_item", "f"]

/-- Python name resolution for a local variable reference. -/
def pyLookupName (locals_ : List String) (n : String) : Option String :=
  if locals_.contains n then some n else none

/-- `export_to_csv`: bails out on empty data, otherwise writes the
computed `files_only_data` rows. -/
def export_to_csv (data : List Entry) : ExportOutcome :=
  if data.isEmpty then .noData
  else .written (files_only_data getattr_current_directory data)

/-- `export_to_json`: bails out on empty data, computes
`files_only_data`, then executes `json.dump(export_data, f)` — the
name `export_data` is resolved against the function's locals, and a
failed lookup raises `NameError`, caught by the surrounding handler as
an export failure. -/
def export_to_json (data : List Entry) : ExportOutcome :=
  if data.isEmpty then .noData
  else
    let root_directory := getattr_current_directory
    let records := files_only_data root_directory data
    match pyLookupName export_to_json_locals "export_data" with
    | some _ => .written records
    | none => .failed "NameError"

/-! ## Spec-side definitions

These definitions follow the specification's words (not the source) and
exist to be compared with the embedded code: a claim-literal filter
rule, its amendment, a spec-level characterization of the file set a
scan returns, and the set of directories the traversal visits. -/

/-- The inclusion rule exactly as claim C3 states it: hidden-name rule,
then — whenever the filter is not the wildcard — membership of the
dotted or undotted lower-cased extension in the allow-set built from
the configured tokens. -/
def claimRule_include_file (cfg : ScanConfig) (fileName : String) : Bool :=
  if !cfg.includeHidden && startsWithDot fileName then false
  else
    let extensions := pyStrip cfg.fileExtensions
    if extensions ≠ "*" then
      let file_ext := pyLower (pathSuffix fileName)
      let file_ext_no_dot :=
        if startsWithDot file_ext then dropFirst file_ext else file_ext
      let allowed_exts := buildAllowed (splitOnComma extensions)
      allowed_exts.contains file_ext || allowed_exts.contains file_ext_no_dot
    else true

/-- The amended inclusion rule: as claim C3, except that a filter whose
allow-set comes out empty (no non-empty tokens, e.g. `","` or an empty
filter) imposes no extension restriction. -/
def amended_include_file (cfg : ScanConfig) (fileName : String) : Bool :=
  if !cfg.includeHidden && startsWithDot fileName then false
  else
    let extensions := pyStrip cfg.fileExtensions
    let allowed_exts := buildAllowed (splitOnComma extensions)
    if extensions = "*" ∨ allowed_exts = [] then true
    else
      let file_ext := pyLower (pathSuffix fileName)
      let file_ext_no_dot :=
        if startsWithDot file_ext then dropFirst file_ext else file_ext
      allowed_exts.contains file_ext || allowed_exts.contains file_ext_no_dot

/-- Pure view of the listing loop's file selection: the qualifying
files of one listing, in listing order. -/
def pyFiles (cfg : ScanConfig) : List FSNode → List (String × String × String)
  | [] => []
  | .file name size mtime :: rest =>
    if should_include_file cfg name then
      (name, size, mtime) :: pyFiles cfg rest
    else pyFiles cfg rest
  | .dir _ _ _ :: rest => pyFiles cfg rest

/-- Pure view of the listing loop's directory selection: the
subdirectories that pass the hidden-name rule, in listing order. -/
def pyFolders (cfg : ScanConfig) :
    List FSNode → List (String × String × List FSNode)
  | [] => []
  | .dir name mtime ch :: rest =>
    if !cfg.includeHidden && startsWithDot name then pyFolders cfg rest
    else (name, mtime, ch) :: pyFolders cfg rest
  | .file _ _ _ :: rest => pyFolders cfg rest

/-- The files of one sorted listing that the spec-side rule admits. -/
def specFilesHere (cfg : ScanConfig) (rp : List String) :
    List FSNode → List (List String)
  | [] => []
  | .file name _ _ :: rest =>
    if amended_include_file cfg name then
      (rp ++ [name]) :: specFilesHere cfg rp rest
    else specFilesHere cfg rp rest
  | .dir _ _ _ :: rest => specFilesHere cfg rp rest

/-- The concatenated recursive contributions of a selected
subdirectory list. -/
def subsConcat (recFn : List FSNode → List String → List (List String))
    (rp : List String) : List (String × String × List FSNode) → List (List String)
  | [] => []
  | (name, _, ch) :: rest => recFn ch (rp ++ [name]) ++ subsConcat recFn rp rest

/-- One level of the spec-side file characterization: qualifying files
of the sorted listing first (judged by the amended rule), then the
files contributed by each non-hidden subdirectory. -/
def specFilesUnder (recFn : List FSNode → List String → List (List String))
    (cfg : ScanConfig) (children : List FSNode) (rp : List String) :
    List (List String) :=
  specFilesHere cfg rp (sortByName children) ++
    subsConcat recFn rp (pyFolders cfg (sortByName children))

/-- Spec-side characterization of the relative paths of the File
records an uncancelled scan returns, by remaining depth budget. -/
def specFiles (cfg : ScanConfig) :
    Nat → List FSNode → List String → List (List String)
  | 0, _, _ => []
  | fuel + 1, children, rp => specFilesUnder (specFiles cfg fuel) cfg children rp

/-- `specFiles` from the scan root. -/
def specFilesRoot (cfg : ScanConfig) (root : FSNode) : List (List String) :=
  match root with
  | .dir _ _ children => specFiles cfg cfg.maxDepth children []
  | .file _ _ _ => []

/-- Helper for `visitedDirs`: the directories of one selected listing
together with everything visited beneath them. -/
def visitedDirsList (recFn : List FSNode → List String → List (List String)) :
    List (String × String × List FSNode) → List String → List (List String)
  | [], _ => []
  | (name, _, children) :: rest, rp =>
    ((rp ++ [name]) :: recFn children (rp ++ [name])) ++
      visitedDirsList recFn rest rp

/-- The relative paths of every directory the traversal visits and
considers for recording: non-hidden (under the configuration) at every
step, within the remaining depth budget. -/
def visitedDirs (cfg : ScanConfig) :
    Nat → List FSNode → List String → List (List String)
  | 0, _, _ => []
  | fuel + 1, children, rp =>
    visitedDirsList (visitedDirs cfg fuel) (pyFolders cfg (sortByName children)) rp

/-- `visitedDirs` from the scan root. -/
def visitedDirsRoot (cfg : ScanConfig) (root : FSNode) : List (List String) :=
  match root with
  | .dir _ _ children => visitedDirs cfg cfg.maxDepth children []
  | .file _ _ _ => []

/-- The relative paths of the File records of a data list, in order. -/
def filePaths (l : List Entry) : List (List String) :=
  l.filterMap (fun e => if e.kind = EntryKind.file then some e.path else none)

/-! ## Proof-side definitions -/

/-- Two states that agree on everything except the poll counter. -/
def sameExceptPolls (a b : ScanState) : Prop :=
  a.directory_data = b.directory_data ∧ a.file_stats = b.file_stats ∧
  a.progress = b.progress ∧ a.currentFile = b.currentFile ∧ a.logs = b.logs

/-- The record `processFile` appends for one qualifying file. -/
def mkFileEntry (rp : List String) (t : String × String × String) : Entry :=
  ⟨rp ++ [t.1], t.1, .file, t.2.1, t.2.2⟩

/-- Statistics consistency (claim C7): the `"文件"` counter matches the
File records accumulated so far, and the extension buckets sum to it. -/
def statsInv (s : ScanState) : Prop :=
  statsGet s.file_stats "文件" = countFiles s.directory_data ∧
  extSum s.file_stats = statsGet s.file_stats "文件"

/-- Structure of the records one walker call appends, relative to its
`relative_path` `rp` and its remaining depth budget `bound`: every
appended record extends `rp` by one to `bound` non-empty steps, with no
hidden segment when hidden entries are excluded, and — when empty
folders are not shown — every appended Directory record has an appended
File record strictly beneath it. -/
def EntriesOK (cfg : ScanConfig) (rp : List String) (bound : Nat)
    (δ : List Entry) : Prop :=
  ∀ e ∈ δ, ∃ rest, e.path = rp ++ rest ∧ rest ≠ [] ∧ rest.length ≤ bound ∧
    (cfg.includeHidden = false → ∀ seg ∈ rest, startsWithDot seg = false) ∧
    (cfg.showEmptyFolders = false → e.kind = EntryKind.dir →
      ∃ e' ∈ δ, e'.kind = EntryKind.file ∧
        ∃ r2, e'.path = e.path ++ r2 ∧ r2 ≠ [])

/-! ## Concrete fixtures for witnesses and counterexamples -/

/-- Default-style configuration: depth 3, hidden excluded, wildcard
filter, empty folders not shown. -/
def cfgPlain : ScanConfig := ⟨3, false, "*", false⟩

/-- Spec example 1: depth limited to 2. -/
def cfgDepth2 : ScanConfig := ⟨2, false, "*", false⟩

/-- As `cfgPlain` but with `show_empty_folders` set. -/
def cfgShowEmpty : ScanConfig := ⟨3, false, "*", true⟩

/-- A filter string consisting of one comma: neither empty nor the
wildcard, but holding no non-empty token. -/
def cfgComma : ScanConfig := ⟨3, false, ",", false⟩

/-- Spec example 1's tree: `a.txt`, `sub/b.txt`, `sub/deep/c.txt`. -/
def demoTree : FSNode :=
  .dir "root" "t0" [
    .file "a.txt" "1 B" "t1",
    .dir "sub" "t2" [
      .file "b.txt" "2 B" "t3",
      .dir "deep" "t4" [.file "c.txt" "3 B" "t5"]]]

/-- A root holding only an empty hidden directory. -/
def hiddenTree : FSNode := .dir "root" "t0" [.dir ".h" "t1" []]

/-- A hidden directory with content next to a visible file. -/
def hiddenMixTree : FSNode :=
  .dir "root" "t0" [
    .dir ".h" "t1" [.file "x.txt" "1 B" "t2"],
    .file "a.txt" "1 B" "t3"]

/-- A root with one subdirectory holding one file. -/
def keptTree : FSNode :=
  .dir "root" "t0" [.dir "d" "t1" [.file "a.txt" "1 B" "t2"]]

/-- A root holding a single text file. -/
def commaTree : FSNode := .dir "root" "t0" [.file "a.txt" "1 B" "t1"]

/-- Ten subdirectories of one file each: every file append lands on an
odd entry total, so the `% 10` throttle never fires. -/
def throttleTree : FSNode :=
  .dir "root" "t" [
    .dir "D0" "t" [.file "f.txt" "1 B" "t"],
    .dir "D1" "t" [.file "f.txt" "1 B" "t"],
    .dir "D2" "t" [.file "f.txt" "1 B" "t"],
    .dir "D3" "t" [.file "f.txt" "1 B" "t"],
    .dir "D4" "t" [.file "f.txt" "1 B" "t"],
    .dir "D5" "t" [.file "f.txt" "1 B" "t"],
    .dir "D6" "t" [.file "f.txt" "1 B" "t"],
    .dir "D7" "t" [.file "f.txt" "1 B" "t"],
    .dir "D8" "t" [.file "f.txt" "1 B" "t"],
    .dir "D9" "t" [.file "f.txt" "1 B" "t"]]

/-- Ten qualifying files for the one-directory throttle guarantee. -/
def tenFiles : List (String × String × String) :=
  [("f0.txt", "1 B", "t"), ("f1.txt", "1 B", "t"), ("f2.txt", "1 B", "t"),
   ("f3.txt", "1 B", "t"), ("f4.txt", "1 B", "t"), ("f5.txt", "1 B", "t"),
   ("f6.txt", "1 B", "t"), ("f7.txt", "1 B", "t"), ("f8.txt", "1 B", "t"),
   ("f9.txt", "1 B", "t")]

/-- A sample File record for the export claims. -/
def sampleEntry : Entry := ⟨["sub", "b.txt"], "b.txt", .file, "2 B", "t"⟩

/-! ## Basic lemmas -/

theorem flagAt_none (n : Nat) : flagAt none n = false := rfl

theorem poll_none (s : ScanState) :
    poll none s = (false, { s with polls := s.polls + 1 }) := rfl

/-- A file that passes the filter under `includeHidden = false` is not
hidden. -/
theorem should_include_not_hidden {cfg : ScanConfig} {n : String}
    (h : should_include_file cfg n = true) (hh : cfg.includeHidden = false) :
    startsWithDot n = false := by
  by_cases hd : startsWithDot n
  · unfold should_include_file at h
    simp [hh, hd] at h
  · simpa using hd

theorem countFiles_append (l l' : List Entry) :
    countFiles (l ++ l') = countFiles l + countFiles l' := by
  simp [countFiles, List.countP_append]

theorem countFolders_append (l l' : List Entry) :
    countFolders (l ++ l') = countFolders l + countFolders l' := by
  simp [countFolders, List.countP_append]

theorem countFiles_file_singleton (p : List String) (n sz mt : String) :
    countFiles [⟨p, n, .file, sz, mt⟩] = 1 := by
  simp [countFiles]

theorem countFiles_dir_singleton (p : List String) (n sz mt : String) :
    countFiles [⟨p, n, .dir, sz, mt⟩] = 0 := by
  simp [countFiles]

theorem statsGet_statsInc_self (st : List (String × Nat)) (k : String) :
    statsGet (statsInc st k) k = statsGet st k + 1 := by
  induction st with
  | nil => simp [statsInc, statsGet]
  | cons p rest ih =>
    obtain ⟨k', v⟩ := p
    by_cases h : k' = k <;> simp [statsInc, statsGet, h, ih]

theorem statsGet_statsInc_of_ne (st : List (String × Nat)) {k k' : String}
    (h : k' ≠ k) : statsGet (statsInc st k) k' = statsGet st k' := by
  induction st with
  | nil =>
    have hne : ¬k = k' := fun hh => h hh.symm
    simp [statsInc, statsGet, hne]
  | cons p rest ih =>
    obtain ⟨k0, v⟩ := p
    by_cases h0 : k0 = k
    · subst h0
      have hne : ¬k0 = k' := fun hh => h hh.symm
      simp [statsInc, statsGet, hne]
    · by_cases h1 : k0 = k' <;> simp [statsInc, statsGet, h0, h1, ih, h]

theorem extSum_cons (a : String) (b : Nat) (t : List (String × Nat)) :
    extSum ((a, b) :: t) =
      (if a = "文件" ∨ a = "文件夹" then extSum t else b + extSum t) := by
  by_cases h : a = "文件" ∨ a = "文件夹"
  · have h1 : (decide ¬(a = "文件" ∨ a = "文件夹")) = false := by
      simp [h]
    simp only [extSum, List.filter_cons, h1]
    rw [if_pos h, if_neg (by simp [h1])]
  · have h1 : (decide ¬(a = "文件" ∨ a = "文件夹")) = true := by
      simp [h]
    simp only [extSum, List.filter_cons, h1]
    rw [if_neg h, if_pos (by simp [h1])]
    rfl

theorem extSum_nil : extSum [] = 0 := rfl

theorem extSum_statsInc_excl (st : List (String × Nat)) {k : String}
    (h : k = "文件" ∨ k = "文件夹") : extSum (statsInc st k) = extSum st := by
  induction st with
  | nil => simp [statsInc, extSum_cons, h]
  | cons p rest ih =>
    obtain ⟨k0, v⟩ := p
    by_cases h0 : k0 = k
    · subst h0
      simp [statsInc, extSum_cons, h]
    · by_cases hx : k0 = "文件" ∨ k0 = "文件夹" <;>
        simp [statsInc, h0, extSum_cons, hx, ih]

theorem extSum_statsInc_mem (st : List (String × Nat)) {k : String}
    (h1 : k ≠ "文件") (h2 : k ≠ "文件夹") :
    extSum (statsInc st k) = extSum st + 1 := by
  have hk : ¬(k = "文件" ∨ k = "文件夹") := by
    rintro (h | h)
    · exact h1 h
    · exact h2 h
  induction st with
  | nil => simp [statsInc, extSum_cons, hk, extSum_nil]
  | cons p rest ih =>
    obtain ⟨k0, v⟩ := p
    by_cases h0 : k0 = k
    · subst h0
      have hstep : statsInc ((k0, v) :: rest) k0 = (k0, v + 1) :: rest := by
        simp [statsInc]
      rw [hstep, extSum_cons, extSum_cons]
      simp [hk]
      omega
    · rw [statsInc]
      simp only [if_neg h0]
      rw [extSum_cons, extSum_cons, ih]
      rcases Classical.em (k0 = "文件" ∨ k0 = "文件夹") with hx | hx
      · simp only [hx, if_true]
        try omega
      · simp only [hx, if_false]
        try omega

theorem lastDotSplit_shape :
    ∀ cs b d, lastDotSplit cs = some (b, d) → ∃ t, d = '.' :: t := by
  intro cs
  induction cs with
  | nil => intro b d h; simp [lastDotSplit] at h
  | cons c rest ih =>
    intro b d h
    unfold lastDotSplit at h
    cases hm : lastDotSplit rest with
    | some p =>
      obtain ⟨b0, d0⟩ := p
      rw [hm] at h
      simp at h
      exact h.2 ▸ ih b0 d0 hm
    | none =>
      rw [hm] at h
      by_cases hc : c = '.'
      · simp [hc] at h
        exact ⟨rest, h.2.symm⟩
      · simp [hc] at h

/-- A non-empty `Path(...).suffix` begins with the dot. -/
theorem pathSuffix_shape (n : String) :
    pathSuffix n = "" ∨ ∃ t, pathSuffix n = String.mk ('.' :: t) := by
  unfold pathSuffix
  cases h : lastDotSplit n.data with
  | none => left; rfl
  | some p =>
    obtain ⟨b, d⟩ := p
    obtain ⟨t, ht⟩ := lastDotSplit_shape _ _ _ h
    by_cases hc : b ≠ [] ∧ 1 < d.length
    · right
      refine ⟨t, ?_⟩
      dsimp only
      rw [if_pos hc, ht]
    · left
      dsimp only
      rw [if_neg hc]

theorem pyLower_empty : pyLower "" = "" := rfl

theorem pyLower_mk (l : List Char) :
    pyLower (String.mk l) = String.mk (l.map lowerChar) := rfl

/-- The statistics bucket a processed file increments is never one of
the running totals `"文件"` / `"文件夹"`. -/
theorem bucket_ne (n : String) :
    (if pyLower (pathSuffix n) ≠ "" then pyLower (pathSuffix n) else "无扩展名") ≠ "文件" ∧
    (if pyLower (pathSuffix n) ≠ "" then pyLower (pathSuffix n) else "无扩展名") ≠ "文件夹" := by
  rcases pathSuffix_shape n with h | ⟨t, h⟩
  · rw [h, pyLower_empty]
    simp only [ne_eq, not_true_eq_false, if_neg, not_false_eq_true, ite_false]
    constructor <;> decide
  · rw [h, pyLower_mk]
    have hne : String.mk (('.' :: t).map lowerChar) ≠ "" := by
      simp [String.ext_iff]
    rw [if_pos hne]
    constructor <;>
      · intro hEq
        rw [String.ext_iff] at hEq
        simp [lowerChar] at hEq

/-! ### `processFile` field lemmas -/

theorem processFile_data (n sz mt : String) (rp : List String) (s : ScanState) :
    (processFile n sz mt rp s).directory_data =
      s.directory_data ++ [⟨rp ++ [n], n, .file, sz, mt⟩] := by
  unfold processFile
  dsimp only
  split <;> rfl

theorem processFile_stats (n sz mt : String) (rp : List String) (s : ScanState) :
    (processFile n sz mt rp s).file_stats =
      statsInc (statsInc s.file_stats "文件")
        (if pyLower (pathSuffix n) ≠ "" then pyLower (pathSuffix n) else "无扩展名") := by
  unfold processFile
  dsimp only
  split <;> rfl

theorem processFile_polls (n sz mt : String) (rp : List String) (s : ScanState) :
    (processFile n sz mt rp s).polls = s.polls := by
  unfold processFile
  dsimp only
  split <;> rfl

theorem processFile_logs (n sz mt : String) (rp : List String) (s : ScanState) :
    (processFile n sz mt rp s).logs = s.logs := by
  unfold processFile
  dsimp only
  split <;> rfl

theorem processFile_progress (n sz mt : String) (rp : List String) (s : ScanState) :
    ∃ pr, (processFile n sz mt rp s).progress = s.progress ++ pr := by
  unfold processFile
  dsimp only
  split
  · exact ⟨_, rfl⟩
  · exact ⟨[], by simp⟩

/-! ### Constructor equations for the pure listing views -/

theorem pyFiles_nil (cfg : ScanConfig) : pyFiles cfg [] = [] := rfl

theorem pyFiles_cons_file (cfg : ScanConfig) (n sz mt : String)
    (rest : List FSNode) :
    pyFiles cfg (.file n sz mt :: rest) =
      if should_include_file cfg n then (n, sz, mt) :: pyFiles cfg rest
      else pyFiles cfg rest := rfl

theorem pyFiles_cons_dir (cfg : ScanConfig) (n mt : String)
    (ch rest : List FSNode) :
    pyFiles cfg (.dir n mt ch :: rest) = pyFiles cfg rest := rfl

theorem pyFolders_nil (cfg : ScanConfig) : pyFolders cfg [] = [] := rfl

theorem pyFolders_cons_dir (cfg : ScanConfig) (n mt : String)
    (ch rest : List FSNode) :
    pyFolders cfg (.dir n mt ch :: rest) =
      if !cfg.includeHidden && startsWithDot n then pyFolders cfg rest
      else (n, mt, ch) :: pyFolders cfg rest := rfl

theorem pyFolders_cons_file (cfg : ScanConfig) (n sz mt : String)
    (rest : List FSNode) :
    pyFolders cfg (.file n sz mt :: rest) = pyFolders cfg rest := rfl

/-! ### Listing-loop (`partitionItems`) lemmas -/

theorem sameExceptPolls_refl (s : ScanState) : sameExceptPolls s s :=
  ⟨rfl, rfl, rfl, rfl, rfl⟩

theorem sameExceptPolls_trans {a b c : ScanState}
    (h1 : sameExceptPolls a b) (h2 : sameExceptPolls b c) :
    sameExceptPolls a c :=
  ⟨h1.1.trans h2.1, h1.2.1.trans h2.2.1, h1.2.2.1.trans h2.2.2.1,
   h1.2.2.2.1.trans h2.2.2.2.1, h1.2.2.2.2.trans h2.2.2.2.2⟩

theorem sameExceptPolls_poll (cancelAt : Option Nat) (s : ScanState) :
    sameExceptPolls (poll cancelAt s).2 s :=
  ⟨rfl, rfl, rfl, rfl, rfl⟩

/-- The listing loop only reads the stop flag; it touches no other
state field. -/
theorem partitionItems_state (cancelAt : Option Nat) (cfg : ScanConfig)
    (l : List FSNode) :
    ∀ s, sameExceptPolls (partitionItems cancelAt cfg l s).2.2 s := by
  induction l with
  | nil =>
    intro s
    exact sameExceptPolls_refl s
  | cons item rest ih =>
    intro s
    have hrec := sameExceptPolls_trans (ih (poll cancelAt s).2)
      (sameExceptPolls_poll cancelAt s)
    cases item with
    | dir name mtime children =>
      unfold partitionItems
      dsimp only
      cases hstop : (poll cancelAt s).1 with
      | true =>
        rw [if_pos rfl]
        exact sameExceptPolls_poll cancelAt s
      | false =>
        simp only [Bool.false_eq_true, if_false]
        by_cases hh : (!cfg.includeHidden && startsWithDot name) = true
        · rw [if_pos hh]
          exact hrec
        · rw [if_neg hh]
          exact hrec
    | file name size mtime =>
      unfold partitionItems
      dsimp only
      cases hstop : (poll cancelAt s).1 with
      | true =>
        rw [if_pos rfl]
        exact sameExceptPolls_poll cancelAt s
      | false =>
        simp only [Bool.false_eq_true, if_false]
        by_cases hh : should_include_file cfg name = true
        · rw [if_pos hh]
          exact hrec
        · rw [if_neg hh]
          exact hrec

/-- An uncancelled listing pass selects exactly the qualifying files
and the non-hidden subdirectories, in listing order, and performs one
poll per listed item. -/
theorem partitionItems_none (cfg : ScanConfig) (l : List FSNode) :
    ∀ s, partitionItems none cfg l s =
      (pyFiles cfg l, pyFolders cfg l,
        { s with polls := s.polls + l.length }) := by
  induction l with
  | nil =>
    intro s
    simp [partitionItems, pyFiles, pyFolders]
  | cons item rest ih =>
    intro s
    have hstop : ∀ t : ScanState, (poll none t).1 = false := fun _ => rfl
    cases item with
    | dir name mtime children =>
      unfold partitionItems
      dsimp only
      simp only [hstop, Bool.false_eq_true, if_false]
      by_cases hh : (!cfg.includeHidden && startsWithDot name) = true
      · rw [if_pos hh, ih, pyFiles_cons_dir, pyFolders_cons_dir, if_pos hh]
        simp only [poll, Prod.mk.injEq, ScanState.mk.injEq, List.length_cons,
          true_and, and_true]
        omega
      · rw [if_neg hh, ih, pyFiles_cons_dir, pyFolders_cons_dir, if_neg hh]
        simp only [poll, Prod.mk.injEq, ScanState.mk.injEq, List.length_cons,
          true_and, and_true]
        omega
    | file name size mtime =>
      unfold partitionItems
      dsimp only
      simp only [hstop, Bool.false_eq_true, if_false]
      by_cases hh : should_include_file cfg name = true
      · rw [if_pos hh, ih, pyFiles_cons_file, pyFolders_cons_file, if_pos hh]
        simp only [poll, Prod.mk.injEq, ScanState.mk.injEq, List.length_cons,
          true_and, and_true]
        omega
      · rw [if_neg hh, ih, pyFiles_cons_file, pyFolders_cons_file, if_neg hh]
        simp only [poll, Prod.mk.injEq, ScanState.mk.injEq, List.length_cons,
          true_and, and_true]
        omega

/-- A possibly-cancelled listing pass selects a sublist of what the
uncancelled pass selects. -/
theorem partitionItems_sublist (cancelAt : Option Nat) (cfg : ScanConfig)
    (l : List FSNode) :
    ∀ s, (partitionItems cancelAt cfg l s).1.Sublist (pyFiles cfg l) ∧
      (partitionItems cancelAt cfg l s).2.1.Sublist (pyFolders cfg l) := by
  induction l with
  | nil =>
    intro s
    exact ⟨List.Sublist.refl _, List.Sublist.refl _⟩
  | cons item rest ih =>
    intro s
    cases item with
    | dir name mtime children =>
      unfold partitionItems
      dsimp only
      cases hstop : (poll cancelAt s).1 with
      | true =>
        rw [if_pos rfl]
        exact ⟨List.nil_sublist _, List.nil_sublist _⟩
      | false =>
        simp only [Bool.false_eq_true, if_false]
        by_cases hh : (!cfg.includeHidden && startsWithDot name) = true
        · rw [if_pos hh, pyFiles_cons_dir, pyFolders_cons_dir, if_pos hh]
          exact ih _
        · rw [if_neg hh, pyFiles_cons_dir, pyFolders_cons_dir, if_neg hh]
          exact ⟨(ih _).1, List.Sublist.cons₂ _ (ih _).2⟩
    | file name size mtime =>
      unfold partitionItems
      dsimp only
      cases hstop : (poll cancelAt s).1 with
      | true =>
        rw [if_pos rfl]
        exact ⟨List.nil_sublist _, List.nil_sublist _⟩
      | false =>
        simp only [Bool.false_eq_true, if_false]
        by_cases hh : should_include_file cfg name = true
        · rw [if_pos hh, pyFiles_cons_file, pyFolders_cons_file, if_pos hh]
          exact ⟨List.Sublist.cons₂ _ (ih _).1, (ih _).2⟩
        · rw [if_neg hh, pyFiles_cons_file, pyFolders_cons_file, if_neg hh]
          exact ih _

/-- Everything `pyFiles` selects passed the inclusion filter. -/
theorem pyFiles_mem_pass {cfg : ScanConfig} {l : List FSNode}
    {t : String × String × String} (h : t ∈ pyFiles cfg l) :
    should_include_file cfg t.1 = true := by
  induction l with
  | nil => simp [pyFiles] at h
  | cons item rest ih =>
    cases item with
    | file name size mtime =>
      unfold pyFiles at h
      by_cases hh : should_include_file cfg name = true
      · rw [if_pos hh] at h
        rcases List.mem_cons.mp h with h | h
        · subst h
          exact hh
        · exact ih h
      · rw [if_neg hh] at h
        exact ih h
    | dir name mtime children =>
      unfold pyFiles at h
      exact ih h

/-- Everything `pyFolders` selects passed the hidden-name rule. -/
theorem pyFolders_mem_ok {cfg : ScanConfig} {l : List FSNode}
    {t : String × String × List FSNode} (h : t ∈ pyFolders cfg l)
    (hh : cfg.includeHidden = false) : startsWithDot t.1 = false := by
  induction l with
  | nil => simp [pyFolders] at h
  | cons item rest ih =>
    cases item with
    | file name size mtime =>
      unfold pyFolders at h
      exact ih h
    | dir name mtime children =>
      unfold pyFolders at h
      by_cases hd : (!cfg.includeHidden && startsWithDot name) = true
      · rw [if_pos hd] at h
        exact ih h
      · rw [if_neg hd] at h
        rcases List.mem_cons.mp h with h | h
        · subst h
          rw [hh] at hd
          simpa using hd
        · exact ih h

/-! ### File-loop (`processFiles`) lemmas -/

/-- The uncancelled file loop processes every file, in order. -/
theorem processFiles_none_char (rp : List String)
    (files : List (String × String × String)) :
    ∀ s, (processFiles none files rp s).1 = !files.isEmpty ∧
      (processFiles none files rp s).2.directory_data =
        s.directory_data ++ files.map (mkFileEntry rp) := by
  induction files with
  | nil =>
    intro s
    simp [processFiles]
  | cons t rest ih =>
    obtain ⟨n, sz, mt⟩ := t
    intro s
    unfold processFiles
    dsimp only
    have hstop : (poll none s).1 = false := rfl
    simp only [hstop, Bool.false_eq_true, if_false]
    refine ⟨by simp, ?_⟩
    rw [(ih _).2, processFile_data]
    have hpd : (poll none s).2.directory_data = s.directory_data := rfl
    rw [hpd]
    simp [mkFileEntry, List.append_assoc]

/-- A possibly-cancelled file loop processes a prefix of its files, and
reports content exactly when that prefix is non-empty. -/
theorem processFiles_delta (cancelAt : Option Nat) (rp : List String)
    (files : List (String × String × String)) :
    ∀ s, ∃ pre, pre.IsPrefix files ∧
      (processFiles cancelAt files rp s).2.directory_data =
        s.directory_data ++ pre.map (mkFileEntry rp) ∧
      ((processFiles cancelAt files rp s).1 = true ↔ pre ≠ []) := by
  induction files with
  | nil =>
    intro s
    refine ⟨[], List.nil_prefix, by simp [processFiles], by simp [processFiles]⟩
  | cons t rest ih =>
    obtain ⟨n, sz, mt⟩ := t
    intro s
    unfold processFiles
    dsimp only
    cases hstop : (poll cancelAt s).1 with
    | true =>
      rw [if_pos rfl]
      refine ⟨[], List.nil_prefix, ?_, by simp⟩
      have hpd : (poll cancelAt s).2.directory_data = s.directory_data := rfl
      simp [hpd]
    | false =>
      simp only [Bool.false_eq_true, if_false]
      obtain ⟨pre, hpre, hdata, _⟩ :=
        ih (processFile n sz mt rp (poll cancelAt s).2)
      refine ⟨(n, sz, mt) :: pre, ?_, ?_, by simp⟩
      · obtain ⟨tl, htl⟩ := hpre
        exact ⟨tl, by rw [List.cons_append, htl]⟩
      · rw [hdata, processFile_data]
        have hpd : (poll cancelAt s).2.directory_data = s.directory_data := rfl
        rw [hpd]
        simp [mkFileEntry, List.append_assoc]

/-! ### `EntriesOK` combinators -/

theorem EntriesOK_nil (cfg : ScanConfig) (rp : List String) (B : Nat) :
    EntriesOK cfg rp B [] := by
  intro e he
  simp at he

theorem EntriesOK_append {cfg : ScanConfig} {rp : List String} {B : Nat}
    {δ1 δ2 : List Entry} (h1 : EntriesOK cfg rp B δ1)
    (h2 : EntriesOK cfg rp B δ2) : EntriesOK cfg rp B (δ1 ++ δ2) := by
  intro e he
  rcases List.mem_append.mp he with h | h
  · obtain ⟨r, hp, hne, hlen, hh, hd⟩ := h1 e h
    refine ⟨r, hp, hne, hlen, hh, fun hs hk => ?_⟩
    obtain ⟨e', he', hf, r2, h2', h2n⟩ := hd hs hk
    exact ⟨e', List.mem_append.mpr (Or.inl he'), hf, r2, h2', h2n⟩
  · obtain ⟨r, hp, hne, hlen, hh, hd⟩ := h2 e h
    refine ⟨r, hp, hne, hlen, hh, fun hs hk => ?_⟩
    obtain ⟨e', he', hf, r2, h2', h2n⟩ := hd hs hk
    exact ⟨e', List.mem_append.mpr (Or.inr he'), hf, r2, h2', h2n⟩

theorem EntriesOK_mono {cfg : ScanConfig} {rp : List String} {B B' : Nat}
    {δ : List Entry} (h : EntriesOK cfg rp B δ) (hB : B ≤ B') :
    EntriesOK cfg rp B' δ := by
  intro e he
  obtain ⟨r, hp, hne, hlen, hh, hd⟩ := h e he
  exact ⟨r, hp, hne, hlen.trans hB, hh, hd⟩

/-- Rebasing the records of a child call (`relative_path` extended by
the child's name) to the parent's `relative_path`. -/
theorem EntriesOK_rebase {cfg : ScanConfig} {rp : List String} {B : Nat}
    {δ : List Entry} (name : String)
    (hn : cfg.includeHidden = false → startsWithDot name = false)
    (h : EntriesOK cfg (rp ++ [name]) B δ) : EntriesOK cfg rp (B + 1) δ := by
  intro e he
  obtain ⟨r, hp, _, hlen, hh, hd⟩ := h e he
  refine ⟨name :: r, ?_, by simp, by simp; omega, ?_, hd⟩
  · rw [hp, List.append_assoc]
    rfl
  · intro hic seg hseg
    rcases List.mem_cons.mp hseg with hseg | hseg
    · subst hseg
      exact hn hic
    · exact hh hic seg hseg

/-- What one file loop appends, packaged for the master lemma. -/
theorem processFiles_master (cancelAt : Option Nat) (cfg : ScanConfig)
    (rp : List String) (files : List (String × String × String))
    (hfiles : ∀ t ∈ files, should_include_file cfg t.1 = true) :
    ∀ s, ∃ δ,
      (processFiles cancelAt files rp s).2.directory_data =
        s.directory_data ++ δ ∧
      EntriesOK cfg rp 1 δ ∧
      ((processFiles cancelAt files rp s).1 = true →
        ∃ e ∈ δ, e.kind = EntryKind.file) := by
  intro s
  obtain ⟨pre, hpre, hdata, hbool⟩ := processFiles_delta cancelAt rp files s
  refine ⟨pre.map (mkFileEntry rp), hdata, ?_, ?_⟩
  · intro e he
    rw [List.mem_map] at he
    obtain ⟨t, ht, rfl⟩ := he
    refine ⟨[t.1], rfl, by simp, by simp, ?_, ?_⟩
    · intro hic seg hseg
      rw [List.mem_singleton] at hseg
      subst hseg
      exact should_include_not_hidden (hfiles t (hpre.subset ht)) hic
    · intro _ hk
      simp [mkFileEntry] at hk
  · intro hb
    have hne := hbool.mp hb
    cases pre with
    | nil => exact absurd rfl hne
    | cons t pre' => exact ⟨mkFileEntry rp t, by simp, rfl⟩

/-! ### Folder-loop and walker master lemmas -/

/-- What one folder loop appends: every kept subdirectory record sits
at one step below the current `relative_path`, its subtree's records
below it, and — without `show_empty_folders` — a kept subdirectory
always has an appended File record strictly beneath it. -/
theorem processFolders_master (cancelAt : Option Nat) (cfg : ScanConfig)
    (recScan : List FSNode → List String → ScanState → Bool × ScanState)
    (B : Nat)
    (hrec : ∀ ch rp s, ∃ δ,
      (recScan ch rp s).2.directory_data = s.directory_data ++ δ ∧
      EntriesOK cfg rp B δ ∧
      (cfg.showEmptyFolders = false → (recScan ch rp s).1 = true →
        ∃ e ∈ δ, e.kind = EntryKind.file)) :
    ∀ (folders : List (String × String × List FSNode)) (rp : List String)
      (s : ScanState),
      (∀ t ∈ folders, cfg.includeHidden = false → startsWithDot t.1 = false) →
      ∃ δ, (processFolders cancelAt cfg recScan folders rp s).2.directory_data =
          s.directory_data ++ δ ∧
        EntriesOK cfg rp (B + 1) δ ∧
        (cfg.showEmptyFolders = false →
          (processFolders cancelAt cfg recScan folders rp s).1 = true →
          ∃ e ∈ δ, e.kind = EntryKind.file) := by
  intro folders
  induction folders with
  | nil =>
    intro rp s _
    refine ⟨[], by simp [processFolders], EntriesOK_nil cfg rp (B + 1), ?_⟩
    intro _ hb
    simp [processFolders] at hb
  | cons t rest ih =>
    obtain ⟨name, mt, ch⟩ := t
    intro rp s hfold
    have hname : cfg.includeHidden = false → startsWithDot name = false :=
      fun hic => hfold (name, mt, ch) (List.mem_cons_self _ _) hic
    have hrest : ∀ t ∈ rest, cfg.includeHidden = false →
        startsWithDot t.1 = false :=
      fun t ht hic => hfold t (List.mem_cons_of_mem _ ht) hic
    unfold processFolders
    dsimp only
    cases hstop : (poll cancelAt s).1 with
    | true =>
      rw [if_pos rfl]
      have hpd : (poll cancelAt s).2.directory_data = s.directory_data := rfl
      refine ⟨[], by simp [hpd], EntriesOK_nil cfg rp (B + 1), ?_⟩
      intro _ hb
      simp at hb
    | false =>
      simp only [Bool.false_eq_true, if_false]
      obtain ⟨δc, hcdata, hcok, hcfile⟩ :=
        hrec ch (rp ++ [name]) (poll cancelAt s).2
      have hcok' : EntriesOK cfg rp (B + 1) δc := EntriesOK_rebase name hname hcok
      have hpd : (poll cancelAt s).2.directory_data = s.directory_data := rfl
      by_cases hkeep :
        ((recScan ch (rp ++ [name]) (poll cancelAt s).2).1 ||
          cfg.showEmptyFolders) = true
      · rw [if_pos hkeep]
        obtain ⟨δr, hrdata, hrok, hrfile⟩ := ih rp
          { (recScan ch (rp ++ [name]) (poll cancelAt s).2).2 with
            directory_data :=
              (recScan ch (rp ++ [name]) (poll cancelAt s).2).2.directory_data ++
                [⟨rp ++ [name], name, .dir, "-", mt⟩],
            file_stats := statsInc
              (recScan ch (rp ++ [name]) (poll cancelAt s).2).2.file_stats
              "文件夹" } hrest
        refine ⟨δc ++ (⟨rp ++ [name], name, .dir, "-", mt⟩ :: δr), ?_, ?_, ?_⟩
        · rw [hrdata]
          dsimp only
          rw [hcdata, hpd]
          simp [List.append_assoc]
        · intro e he
          rcases List.mem_append.mp he with hc | hc
          · obtain ⟨r, hp, hne, hlen, hh, hd⟩ := hcok' e hc
            refine ⟨r, hp, hne, hlen, hh, fun hs hk => ?_⟩
            obtain ⟨e', he', hf, r2, h2', h2n⟩ := hd hs hk
            exact ⟨e', List.mem_append.mpr (Or.inl he'), hf, r2, h2', h2n⟩
          · rcases List.mem_cons.mp hc with hc | hc
            · subst hc
              refine ⟨[name], rfl, by simp, by simp, ?_, ?_⟩
              · intro hic seg hseg
                rw [List.mem_singleton] at hseg
                subst hseg
                exact hname hic
              · intro hs _
                have hrc :
                    (recScan ch (rp ++ [name]) (poll cancelAt s).2).1 = true := by
                  rw [hs] at hkeep
                  simpa using hkeep
                obtain ⟨e', he', hf⟩ := hcfile hs hrc
                obtain ⟨r, hp, hne, _, _, _⟩ := hcok e' he'
                exact ⟨e', List.mem_append.mpr (Or.inl he'), hf, r, hp, hne⟩
            · obtain ⟨r, hp, hne, hlen, hh, hd⟩ := hrok e hc
              refine ⟨r, hp, hne, hlen, hh, fun hs hk => ?_⟩
              obtain ⟨e', he', hf, r2, h2', h2n⟩ := hd hs hk
              exact ⟨e',
                List.mem_append.mpr (Or.inr (List.mem_cons_of_mem _ he')),
                hf, r2, h2', h2n⟩
        · intro hs _
          have hrc :
              (recScan ch (rp ++ [name]) (poll cancelAt s).2).1 = true := by
            rw [hs] at hkeep
            simpa using hkeep
          obtain ⟨e', he', hf⟩ := hcfile hs hrc
          exact ⟨e', List.mem_append.mpr (Or.inl he'), hf⟩
      · rw [if_neg hkeep]
        obtain ⟨δr, hrdata, hrok, hrfile⟩ := ih rp
          (recScan ch (rp ++ [name]) (poll cancelAt s).2).2 hrest
        refine ⟨δc ++ δr, ?_, EntriesOK_append hcok' hrok, ?_⟩
        · rw [hrdata, hcdata, hpd]
          simp [List.append_assoc]
        · intro hs hb
          obtain ⟨e', he', hf⟩ := hrfile hs hb
          exact ⟨e', List.mem_append.mpr (Or.inr he'), hf⟩

/-- The master structural lemma for `scan_recursive`: the records one
call appends all sit strictly below its `relative_path`, within its
remaining depth budget, non-hidden when hidden entries are excluded,
and — without `show_empty_folders` — every appended Directory record
has an appended File record strictly beneath it, and a `true` return
means some File record was appended. -/
theorem scanDir_master (cancelAt : Option Nat) (cfg : ScanConfig) :
    ∀ fuel children rp s, ∃ δ,
      (scanDir cancelAt cfg fuel children rp s).2.directory_data =
        s.directory_data ++ δ ∧
      EntriesOK cfg rp fuel δ ∧
      (cfg.showEmptyFolders = false →
        (scanDir cancelAt cfg fuel children rp s).1 = true →
        ∃ e ∈ δ, e.kind = EntryKind.file) := by
  intro fuel
  induction fuel with
  | zero =>
    intro children rp s
    refine ⟨[], by simp [scanDir]; rfl, EntriesOK_nil cfg rp 0, ?_⟩
    intro _ hb
    simp [scanDir] at hb
  | succ fuel ih =>
    intro children rp s
    unfold scanDir
    dsimp only
    cases hstop : (poll cancelAt s).1 with
    | true =>
      rw [if_pos rfl]
      have hpd : (poll cancelAt s).2.directory_data = s.directory_data := rfl
      refine ⟨[], by simp [hpd], EntriesOK_nil cfg rp (fuel + 1), ?_⟩
      intro _ hb
      simp at hb
    | false =>
      simp only [Bool.false_eq_true, if_false]
      have hsub := partitionItems_sublist cancelAt cfg (sortByName children)
        (poll cancelAt s).2
      have hfilespass : ∀ t ∈ (partitionItems cancelAt cfg
          (sortByName children) (poll cancelAt s).2).1,
          should_include_file cfg t.1 = true :=
        fun t ht => pyFiles_mem_pass (hsub.1.subset ht)
      have hfoldok : ∀ t ∈ (partitionItems cancelAt cfg
          (sortByName children) (poll cancelAt s).2).2.1,
          cfg.includeHidden = false → startsWithDot t.1 = false :=
        fun t ht hic => pyFolders_mem_ok (hsub.2.subset ht) hic
      obtain ⟨δf, hfdata, hfok, hffile⟩ := processFiles_master cancelAt cfg rp
        (partitionItems cancelAt cfg (sortByName children) (poll cancelAt s).2).1
        hfilespass
        (partitionItems cancelAt cfg (sortByName children) (poll cancelAt s).2).2.2
      obtain ⟨δd, hddata, hdok, hdfile⟩ := processFolders_master cancelAt cfg
        (fun ch rp st => scanDir cancelAt cfg fuel ch rp st) fuel
        (fun ch rp st => ih ch rp st)
        (partitionItems cancelAt cfg (sortByName children) (poll cancelAt s).2).2.1
        rp
        (processFiles cancelAt (partitionItems cancelAt cfg
          (sortByName children) (poll cancelAt s).2).1 rp
          (partitionItems cancelAt cfg (sortByName children)
            (poll cancelAt s).2).2.2).2
        hfoldok
      have hpart := (partitionItems_state cancelAt cfg (sortByName children)
        (poll cancelAt s).2).1
      have hpd : (poll cancelAt s).2.directory_data = s.directory_data := rfl
      refine ⟨δf ++ δd, ?_, ?_, ?_⟩
      · rw [hddata, hfdata, hpart, hpd, List.append_assoc]
      · exact EntriesOK_append (EntriesOK_mono hfok (by omega)) hdok
      · intro hs hb
        rw [Bool.or_eq_true] at hb
        rcases hb with h1 | h1
        · obtain ⟨e, he, hf⟩ := hffile h1
          exact ⟨e, List.mem_append.mpr (Or.inl he), hf⟩
        · obtain ⟨e, he, hf⟩ := hdfile hs h1
          exact ⟨e, List.mem_append.mpr (Or.inr he), hf⟩

/-! ### Append-only corollaries and root-level structure -/

/-- The walker only appends to `directory_data`. -/
theorem scanDir_mono (cancelAt : Option Nat) (cfg : ScanConfig)
    (fuel : Nat) (children : List FSNode) (rp : List String) (s : ScanState) :
    ∃ δ, (scanDir cancelAt cfg fuel children rp s).2.directory_data =
      s.directory_data ++ δ := by
  obtain ⟨δ, h, _, _⟩ := scanDir_master cancelAt cfg fuel children rp s
  exact ⟨δ, h⟩

/-- The folder loop only appends to `directory_data`. -/
theorem processFolders_mono (cancelAt : Option Nat) (cfg : ScanConfig)
    (recScan : List FSNode → List String → ScanState → Bool × ScanState)
    (hrec : ∀ ch rp s, ∃ δ,
      (recScan ch rp s).2.directory_data = s.directory_data ++ δ) :
    ∀ (folders : List (String × String × List FSNode)) (rp : List String)
      (s : ScanState),
      ∃ δ, (processFolders cancelAt cfg recScan folders rp s).2.directory_data =
        s.directory_data ++ δ := by
  intro folders
  induction folders with
  | nil =>
    intro rp s
    exact ⟨[], by simp [processFolders]⟩
  | cons t rest ih =>
    obtain ⟨name, mt, ch⟩ := t
    intro rp s
    unfold processFolders
    dsimp only
    cases hstop : (poll cancelAt s).1 with
    | true =>
      rw [if_pos rfl]
      exact ⟨[], by simp; rfl⟩
    | false =>
      simp only [Bool.false_eq_true, if_false]
      have hpd : (poll cancelAt s).2.directory_data = s.directory_data := rfl
      obtain ⟨δc, hc⟩ := hrec ch (rp ++ [name]) (poll cancelAt s).2
      by_cases hkeep :
        ((recScan ch (rp ++ [name]) (poll cancelAt s).2).1 ||
          cfg.showEmptyFolders) = true
      · rw [if_pos hkeep]
        obtain ⟨δr, hr⟩ := ih rp _
        refine ⟨δc ++ ([⟨rp ++ [name], name, .dir, "-", mt⟩] ++ δr), ?_⟩
        rw [hr]
        dsimp only
        rw [hc, hpd]
        simp [List.append_assoc]
      · rw [if_neg hkeep]
        obtain ⟨δr, hr⟩ := ih rp _
        refine ⟨δc ++ δr, ?_⟩
        rw [hr, hc, hpd, List.append_assoc]

/-- Root-level version of the master lemma (a file root appends no
records at all). -/
theorem scanRoot_master (cancelAt : Option Nat) (cfg : ScanConfig)
    (root : FSNode) (s : ScanState) :
    ∃ δ, (scanRoot cancelAt cfg root s).2.directory_data =
        s.directory_data ++ δ ∧
      EntriesOK cfg [] cfg.maxDepth δ := by
  cases root with
  | dir name mtime children =>
    obtain ⟨δ, h1, h2, _⟩ :=
      scanDir_master cancelAt cfg cfg.maxDepth children [] s
    exact ⟨δ, h1, h2⟩
  | file name size mtime =>
    refine ⟨[], ?_, EntriesOK_nil cfg [] cfg.maxDepth⟩
    unfold scanRoot
    dsimp only
    cases hstop : (poll cancelAt s).1 with
    | true =>
      rw [if_pos rfl]
      simp
      rfl
    | false =>
      simp only [Bool.false_eq_true, if_false]
      by_cases hz : cfg.maxDepth = 0
      · rw [if_pos hz]
        simp
        rfl
      · rw [if_neg hz]
        simp
        rfl

/-- The records a whole scan returns satisfy the structural invariant
from the empty relative path with the full depth budget. -/
theorem scan_directory_entriesOK (cancelAt : Option Nat) (cfg : ScanConfig)
    (root : FSNode) :
    EntriesOK cfg [] cfg.maxDepth (scan_directory cancelAt cfg root).data := by
  obtain ⟨δ, h1, h2⟩ :=
    scanRoot_master cancelAt cfg root ⟨[], [], [], [], [], 0⟩
  have hd : (scan_directory cancelAt cfg root).data =
      (scanRoot cancelAt cfg root ⟨[], [], [], [], [], 0⟩).2.directory_data := rfl
  rw [hd, h1]
  simpa using h2

/-! ### Visited directories appear when empty folders are shown -/

/-- Step lemma for the folder loop of an uncancelled scan with
`show_empty_folders` set: every directory of the selected listing, and
everything visited beneath it, ends up recorded. -/
theorem processFolders_visits (cfg : ScanConfig)
    (hs : cfg.showEmptyFolders = true)
    (recScan : List FSNode → List String → ScanState → Bool × ScanState)
    (recVisited : List FSNode → List String → List (List String))
    (hrecMono : ∀ ch rp s, ∃ δ,
      (recScan ch rp s).2.directory_data = s.directory_data ++ δ)
    (hrecVisit : ∀ ch rp s, ∀ p ∈ recVisited ch rp,
      ∃ e ∈ (recScan ch rp s).2.directory_data,
        e.kind = EntryKind.dir ∧ e.path = p) :
    ∀ (folders : List (String × String × List FSNode)) (rp : List String)
      (s : ScanState),
      ∀ p ∈ visitedDirsList recVisited folders rp,
        ∃ e ∈ (processFolders none cfg recScan folders rp s).2.directory_data,
          e.kind = EntryKind.dir ∧ e.path = p := by
  intro folders
  induction folders with
  | nil =>
    intro rp s p hp
    simp [visitedDirsList] at hp
  | cons t rest ih =>
    obtain ⟨name, mt, ch⟩ := t
    intro rp s p hp
    unfold processFolders
    dsimp only
    have hstop : (poll none s).1 = false := rfl
    simp only [hstop, Bool.false_eq_true, if_false]
    have hkeep : ((recScan ch (rp ++ [name]) (poll none s).2).1 ||
        cfg.showEmptyFolders) = true := by
      rw [hs]
      simp
    rw [if_pos hkeep]
    have hmono3 := processFolders_mono none cfg recScan hrecMono rest rp
      { (recScan ch (rp ++ [name]) (poll none s).2).2 with
        directory_data :=
          (recScan ch (rp ++ [name]) (poll none s).2).2.directory_data ++
            [⟨rp ++ [name], name, .dir, "-", mt⟩],
        file_stats := statsInc
          (recScan ch (rp ++ [name]) (poll none s).2).2.file_stats "文件夹" }
    obtain ⟨δr, hδr⟩ := hmono3
    unfold visitedDirsList at hp
    rcases List.mem_append.mp hp with hp | hp
    · rcases List.mem_cons.mp hp with hp | hp
      · subst hp
        refine ⟨⟨rp ++ [name], name, .dir, "-", mt⟩, ?_, rfl, rfl⟩
        rw [hδr]
        dsimp only
        simp
      · obtain ⟨e, he, hke, hpe⟩ :=
          hrecVisit ch (rp ++ [name]) (poll none s).2 p hp
        refine ⟨e, ?_, hke, hpe⟩
        rw [hδr]
        dsimp only
        simp [he]
    · obtain ⟨e, he, hke, hpe⟩ := ih rp _ p hp
      exact ⟨e, he, hke, hpe⟩

/-- Every directory the traversal visits appears in the result of an
uncancelled scan with `show_empty_folders` set. -/
theorem visitedDirs_appear (cfg : ScanConfig)
    (hs : cfg.showEmptyFolders = true) :
    ∀ fuel children rp s, ∀ p ∈ visitedDirs cfg fuel children rp,
      ∃ e ∈ (scanDir none cfg fuel children rp s).2.directory_data,
        e.kind = EntryKind.dir ∧ e.path = p := by
  intro fuel
  induction fuel with
  | zero =>
    intro children rp s p hp
    simp [visitedDirs] at hp
  | succ fuel ih =>
    intro children rp s p hp
    unfold scanDir
    dsimp only
    have hstop : (poll none s).1 = false := rfl
    simp only [hstop, Bool.false_eq_true, if_false]
    rw [partitionItems_none]
    dsimp only
    unfold visitedDirs at hp
    have hmono : ∀ ch rp' s', ∃ δ,
        (scanDir none cfg fuel ch rp' s').2.directory_data =
          s'.directory_data ++ δ :=
      fun ch rp' s' => scanDir_mono none cfg fuel ch rp' s'
    exact processFolders_visits cfg hs
      (fun ch rp' st => scanDir none cfg fuel ch rp' st)
      (visitedDirs cfg fuel) hmono (fun ch rp' s' => ih ch rp' s')
      (pyFolders cfg (sortByName children)) rp _ p hp

/-! ### Statistics invariant chain (claim C7) -/

theorem statsInv_sameExceptPolls {a b : ScanState} (h : sameExceptPolls a b)
    (hb : statsInv b) : statsInv a := by
  unfold statsInv at *
  rw [h.1, h.2.1]
  exact hb

/-- Processing one file preserves statistics consistency: the record
append is matched by one bump of the `"文件"` counter and one bump of a
single extension bucket. -/
theorem statsInv_processFile (n sz mt : String) (rp : List String)
    (s : ScanState) (h : statsInv s) : statsInv (processFile n sz mt rp s) := by
  obtain ⟨h1, h2⟩ := h
  have hb := bucket_ne n
  have hget : statsGet (processFile n sz mt rp s).file_stats "文件" =
      statsGet s.file_stats "文件" + 1 := by
    rw [processFile_stats, statsGet_statsInc_of_ne _ (Ne.symm hb.1),
      statsGet_statsInc_self]
  constructor
  · rw [hget, processFile_data, countFiles_append, countFiles_file_singleton, h1]
  · rw [hget, processFile_stats, extSum_statsInc_mem _ hb.1 hb.2,
      extSum_statsInc_excl _ (Or.inl rfl), h2]

theorem statsInv_processFiles (cancelAt : Option Nat) (rp : List String) :
    ∀ files s, statsInv s → statsInv (processFiles cancelAt files rp s).2 := by
  intro files
  induction files with
  | nil =>
    intro s h
    exact h
  | cons t rest ih =>
    obtain ⟨n, sz, mt⟩ := t
    intro s h
    unfold processFiles
    dsimp only
    cases hstop : (poll cancelAt s).1 with
    | true =>
      rw [if_pos rfl]
      exact h
    | false =>
      simp only [Bool.false_eq_true, if_false]
      exact ih _ (statsInv_processFile n sz mt rp _ h)

theorem statsInv_processFolders (cancelAt : Option Nat) (cfg : ScanConfig)
    (recScan : List FSNode → List String → ScanState → Bool × ScanState)
    (hrec : ∀ ch rp s, statsInv s → statsInv (recScan ch rp s).2) :
    ∀ folders rp s, statsInv s →
      statsInv (processFolders cancelAt cfg recScan folders rp s).2 := by
  intro folders
  induction folders with
  | nil =>
    intro rp s h
    exact h
  | cons t rest ih =>
    obtain ⟨name, mt, ch⟩ := t
    intro rp s h
    unfold processFolders
    dsimp only
    cases hstop : (poll cancelAt s).1 with
    | true =>
      rw [if_pos rfl]
      exact h
    | false =>
      simp only [Bool.false_eq_true, if_false]
      have hc : statsInv (recScan ch (rp ++ [name]) (poll cancelAt s).2).2 :=
        hrec ch (rp ++ [name]) (poll cancelAt s).2 h
      by_cases hkeep :
        ((recScan ch (rp ++ [name]) (poll cancelAt s).2).1 ||
          cfg.showEmptyFolders) = true
      · rw [if_pos hkeep]
        refine ih rp _ ?_
        obtain ⟨hc1, hc2⟩ := hc
        constructor
        · dsimp only
          rw [statsGet_statsInc_of_ne _ (by decide), countFiles_append,
            countFiles_dir_singleton, hc1]
          omega
        · dsimp only
          rw [extSum_statsInc_excl _ (Or.inr rfl),
            statsGet_statsInc_of_ne _ (by decide), hc2]
      · rw [if_neg hkeep]
        exact ih rp _ hc

theorem statsInv_scanDir (cancelAt : Option Nat) (cfg : ScanConfig) :
    ∀ fuel children rp s, statsInv s →
      statsInv (scanDir cancelAt cfg fuel children rp s).2 := by
  intro fuel
  induction fuel with
  | zero =>
    intro children rp s h
    exact h
  | succ fuel ih =>
    intro children rp s h
    unfold scanDir
    dsimp only
    cases hstop : (poll cancelAt s).1 with
    | true =>
      rw [if_pos rfl]
      exact h
    | false =>
      simp only [Bool.false_eq_true, if_false]
      have hpart : statsInv (partitionItems cancelAt cfg (sortByName children)
          (poll cancelAt s).2).2.2 :=
        statsInv_sameExceptPolls
          (partitionItems_state cancelAt cfg (sortByName children)
            (poll cancelAt s).2) h
      exact statsInv_processFolders cancelAt cfg _
        (fun ch rp' s' => ih ch rp' s') _ rp _
        (statsInv_processFiles cancelAt rp _ _ hpart)

theorem statsInv_scanRoot (cancelAt : Option Nat) (cfg : ScanConfig)
    (root : FSNode) (s : ScanState) (h : statsInv s) :
    statsInv (scanRoot cancelAt cfg root s).2 := by
  cases root with
  | dir name mtime children => exact statsInv_scanDir cancelAt cfg _ _ _ _ h
  | file name size mtime =>
    unfold scanRoot
    dsimp only
    cases hstop : (poll cancelAt s).1 with
    | true =>
      rw [if_pos rfl]
      exact h
    | false =>
      simp only [Bool.false_eq_true, if_false]
      by_cases hz : cfg.maxDepth = 0
      · rw [if_pos hz]
        exact h
      · rw [if_neg hz]
        exact h

/-! ### Step equations for the engine -/

theorem processFiles_nil (cancelAt : Option Nat) (rp : List String)
    (s : ScanState) : processFiles cancelAt [] rp s = (false, s) := rfl

theorem processFiles_cons (cancelAt : Option Nat) (n sz mt : String)
    (rest : List (String × String × String)) (rp : List String)
    (s : ScanState) :
    processFiles cancelAt ((n, sz, mt) :: rest) rp s =
      (if (poll cancelAt s).1 then (false, (poll cancelAt s).2)
       else (true, (processFiles cancelAt rest rp
         (processFile n sz mt rp (poll cancelAt s).2)).2)) := rfl

theorem processFolders_nil (cancelAt : Option Nat) (cfg : ScanConfig)
    (recScan : List FSNode → List String → ScanState → Bool × ScanState)
    (rp : List String) (s : ScanState) :
    processFolders cancelAt cfg recScan [] rp s = (false, s) := rfl

theorem processFolders_cons (cancelAt : Option Nat) (cfg : ScanConfig)
    (recScan : List FSNode → List String → ScanState → Bool × ScanState)
    (name mt : String) (ch : List FSNode)
    (rest : List (String × String × List FSNode)) (rp : List String)
    (s : ScanState) :
    processFolders cancelAt cfg recScan ((name, mt, ch) :: rest) rp s =
      (if (poll cancelAt s).1 then (false, (poll cancelAt s).2)
       else if (recScan ch (rp ++ [name]) (poll cancelAt s).2).1 ||
           cfg.showEmptyFolders then
         (true, (processFolders cancelAt cfg recScan rest rp
           { (recScan ch (rp ++ [name]) (poll cancelAt s).2).2 with
             directory_data :=
               (recScan ch (rp ++ [name]) (poll cancelAt s).2).2.directory_data
                 ++ [⟨rp ++ [name], name, .dir, "-", mt⟩],
             file_stats := statsInc
               (recScan ch (rp ++ [name]) (poll cancelAt s).2).2.file_stats
               "文件夹" }).2)
       else processFolders cancelAt cfg recScan rest rp
         (recScan ch (rp ++ [name]) (poll cancelAt s).2).2) := rfl

theorem scanDir_zero (cancelAt : Option Nat) (cfg : ScanConfig)
    (children : List FSNode) (rp : List String) (s : ScanState) :
    scanDir cancelAt cfg 0 children rp s = (false, (poll cancelAt s).2) := rfl

theorem scanDir_succ (cancelAt : Option Nat) (cfg : ScanConfig) (fuel : Nat)
    (children : List FSNode) (rp : List String) (s : ScanState) :
    scanDir cancelAt cfg (fuel + 1) children rp s =
      (if (poll cancelAt s).1 then (false, (poll cancelAt s).2)
       else
         ((processFiles cancelAt
             (partitionItems cancelAt cfg (sortByName children)
               (poll cancelAt s).2).1 rp
             (partitionItems cancelAt cfg (sortByName children)
               (poll cancelAt s).2).2.2).1 ||
           (processFolders cancelAt cfg
             (fun ch rp st => scanDir cancelAt cfg fuel ch rp st)
             (partitionItems cancelAt cfg (sortByName children)
               (poll cancelAt s).2).2.1 rp
             (processFiles cancelAt
               (partitionItems cancelAt cfg (sortByName children)
                 (poll cancelAt s).2).1 rp
               (partitionItems cancelAt cfg (sortByName children)
                 (poll cancelAt s).2).2.2).2).1,
          (processFolders cancelAt cfg
            (fun ch rp st => scanDir cancelAt cfg fuel ch rp st)
            (partitionItems cancelAt cfg (sortByName children)
              (poll cancelAt s).2).2.1 rp
            (processFiles cancelAt
              (partitionItems cancelAt cfg (sortByName children)
                (poll cancelAt s).2).1 rp
              (partitionItems cancelAt cfg (sortByName children)
                (poll cancelAt s).2).2.2).2).2)) := rfl

/-! ### Cancellation refinement (claim C5)

A run cancelled at any poll index appends a sublist of the records the
uncancelled run appends, and reports content only when the uncancelled
run does. -/

theorem processFiles_sim (cancelAt : Option Nat) (rp : List String)
    {fc fn : List (String × String × String)} (hsub : fc.Sublist fn)
    {s t : ScanState}
    (hst : s.directory_data.Sublist t.directory_data) :
    (processFiles cancelAt fc rp s).2.directory_data.Sublist
      (processFiles none fn rp t).2.directory_data ∧
    ((processFiles cancelAt fc rp s).1 = true →
      (processFiles none fn rp t).1 = true) := by
  obtain ⟨pre, hpre, hdata, hbool⟩ := processFiles_delta cancelAt rp fc s
  obtain ⟨hnb, hndata⟩ := processFiles_none_char rp fn t
  constructor
  · rw [hdata, hndata]
    exact hst.append ((hpre.sublist.trans hsub).map (mkFileEntry rp))
  · intro hb
    have hne := hbool.mp hb
    have hfc : fc ≠ [] := by
      intro hfc
      subst hfc
      exact hne (List.prefix_nil.mp hpre)
    have hfn : fn ≠ [] := by
      intro hfn
      subst hfn
      exact hfc (List.sublist_nil.mp hsub)
    rw [hnb]
    cases fn with
    | nil => exact absurd rfl hfn
    | cons a l => simp

theorem processFolders_sim (cancelAt : Option Nat) (cfg : ScanConfig)
    (recC recN : List FSNode → List String → ScanState → Bool × ScanState)
    (hrecSim : ∀ ch rp s t, s.directory_data.Sublist t.directory_data →
      (recC ch rp s).2.directory_data.Sublist
        (recN ch rp t).2.directory_data ∧
      ((recC ch rp s).1 = true → (recN ch rp t).1 = true))
    (hrecMonoN : ∀ ch rp t, ∃ δ,
      (recN ch rp t).2.directory_data = t.directory_data ++ δ) :
    ∀ {lc ln : List (String × String × List FSNode)}, lc.Sublist ln →
    ∀ (rp : List String) (s t : ScanState),
      s.directory_data.Sublist t.directory_data →
      (processFolders cancelAt cfg recC lc rp s).2.directory_data.Sublist
        (processFolders none cfg recN ln rp t).2.directory_data ∧
      ((processFolders cancelAt cfg recC lc rp s).1 = true →
        (processFolders none cfg recN ln rp t).1 = true) := by
  intro lc ln hsub
  induction hsub with
  | slnil =>
    intro rp s t hst
    refine ⟨hst, ?_⟩
    intro hb
    simp [processFolders] at hb
  | @cons lc' ln' x h ih =>
    intro rp s t hst
    obtain ⟨name, mt, ch⟩ := x
    rw [processFolders_cons]
    have hnstop : (poll none t).1 = false := rfl
    simp only [hnstop, Bool.false_eq_true, if_false]
    obtain ⟨δn, hδn⟩ := hrecMonoN ch (rp ++ [name]) (poll none t).2
    have hpdn : (poll none t).2.directory_data = t.directory_data := rfl
    by_cases hkeep :
      ((recN ch (rp ++ [name]) (poll none t).2).1 ||
        cfg.showEmptyFolders) = true
    · rw [if_pos hkeep]
      have hst' : s.directory_data.Sublist
          ((recN ch (rp ++ [name]) (poll none t).2).2.directory_data ++
            [⟨rp ++ [name], name, .dir, "-", mt⟩]) := by
        refine hst.trans ?_
        rw [hδn, hpdn, List.append_assoc]
        exact List.sublist_append_left _ _
      obtain ⟨hd, _⟩ := ih rp s
        { (recN ch (rp ++ [name]) (poll none t).2).2 with
            directory_data :=
              (recN ch (rp ++ [name]) (poll none t).2).2.directory_data ++
                [⟨rp ++ [name], name, .dir, "-", mt⟩],
            file_stats := statsInc
              (recN ch (rp ++ [name]) (poll none t).2).2.file_stats "文件夹" } hst'
      exact ⟨hd, fun _ => by simp⟩
    · rw [if_neg hkeep]
      have hst' : s.directory_data.Sublist
          (recN ch (rp ++ [name]) (poll none t).2).2.directory_data := by
        refine hst.trans ?_
        rw [hδn, hpdn]
        exact List.sublist_append_left _ _
      exact ih rp s _ hst'
  | @cons₂ lc' ln' x h ih =>
    intro rp s t hst
    obtain ⟨name, mt, ch⟩ := x
    rw [processFolders_cons, processFolders_cons]
    have hnstop : (poll none t).1 = false := rfl
    simp only [hnstop, Bool.false_eq_true, if_false]
    have hpdn : (poll none t).2.directory_data = t.directory_data := rfl
    obtain ⟨δn, hδn⟩ := hrecMonoN ch (rp ++ [name]) (poll none t).2
    cases hstop : (poll cancelAt s).1 with
    | true =>
      rw [if_pos rfl]
      have hpd : (poll cancelAt s).2.directory_data = s.directory_data := rfl
      constructor
      · rw [hpd]
        refine hst.trans ?_
        by_cases hkeep :
          ((recN ch (rp ++ [name]) (poll none t).2).1 ||
            cfg.showEmptyFolders) = true
        · rw [if_pos hkeep]
          obtain ⟨δr, hδr⟩ := processFolders_mono none cfg recN hrecMonoN
            ln' rp _
          rw [hδr]
          dsimp only
          rw [hδn, hpdn]
          simp only [List.append_assoc]
          exact List.sublist_append_left _ _
        · rw [if_neg hkeep]
          obtain ⟨δr, hδr⟩ := processFolders_mono none cfg recN hrecMonoN
            ln' rp _
          rw [hδr, hδn, hpdn, List.append_assoc]
          exact List.sublist_append_left _ _
      · intro hb
        simp at hb
    | false =>
      simp only [Bool.false_eq_true, if_false]
      have hpd : (poll cancelAt s).2.directory_data = s.directory_data := rfl
      have hstp : (poll cancelAt s).2.directory_data.Sublist
          (poll none t).2.directory_data := by
        rw [hpd, hpdn]
        exact hst
      obtain ⟨hcd, hcb⟩ := hrecSim ch (rp ++ [name]) (poll cancelAt s).2
        (poll none t).2 hstp
      by_cases hkeepC :
        ((recC ch (rp ++ [name]) (poll cancelAt s).2).1 ||
          cfg.showEmptyFolders) = true
      · have hkeepN :
            ((recN ch (rp ++ [name]) (poll none t).2).1 ||
              cfg.showEmptyFolders) = true := by
          rw [Bool.or_eq_true] at hkeepC ⊢
          rcases hkeepC with h1 | h1
          · exact Or.inl (hcb h1)
          · exact Or.inr h1
        rw [if_pos hkeepC, if_pos hkeepN]
        have hst' := List.Sublist.append hcd
          (List.Sublist.refl [(⟨rp ++ [name], name, .dir, "-", mt⟩ : Entry)])
        obtain ⟨hd, _⟩ := ih rp
          { (recC ch (rp ++ [name]) (poll cancelAt s).2).2 with
            directory_data :=
              (recC ch (rp ++ [name]) (poll cancelAt s).2).2.directory_data ++
                [⟨rp ++ [name], name, .dir, "-", mt⟩],
            file_stats := statsInc
              (recC ch (rp ++ [name]) (poll cancelAt s).2).2.file_stats "文件夹" }
          { (recN ch (rp ++ [name]) (poll none t).2).2 with
            directory_data :=
              (recN ch (rp ++ [name]) (poll none t).2).2.directory_data ++
                [⟨rp ++ [name], name, .dir, "-", mt⟩],
            file_stats := statsInc
              (recN ch (rp ++ [name]) (poll none t).2).2.file_stats "文件夹" } hst'
        exact ⟨hd, fun _ => by simp⟩
      · rw [if_neg hkeepC]
        by_cases hkeepN :
          ((recN ch (rp ++ [name]) (poll none t).2).1 ||
            cfg.showEmptyFolders) = true
        · rw [if_pos hkeepN]
          have hst' : (recC ch (rp ++ [name])
              (poll cancelAt s).2).2.directory_data.Sublist
              ((recN ch (rp ++ [name]) (poll none t).2).2.directory_data ++
                [⟨rp ++ [name], name, .dir, "-", mt⟩]) :=
            hcd.trans (List.sublist_append_left _ _)
          obtain ⟨hd, _⟩ := ih rp
            (recC ch (rp ++ [name]) (poll cancelAt s).2).2
            { (recN ch (rp ++ [name]) (poll none t).2).2 with
            directory_data :=
              (recN ch (rp ++ [name]) (poll none t).2).2.directory_data ++
                [⟨rp ++ [name], name, .dir, "-", mt⟩],
            file_stats := statsInc
              (recN ch (rp ++ [name]) (poll none t).2).2.file_stats "文件夹" } hst'
          exact ⟨hd, fun _ => by simp⟩
        · rw [if_neg hkeepN]
          exact ih rp _ _ hcd

theorem scanDir_sim (cancelAt : Option Nat) (cfg : ScanConfig) :
    ∀ fuel children rp s t, s.directory_data.Sublist t.directory_data →
      (scanDir cancelAt cfg fuel children rp s).2.directory_data.Sublist
        (scanDir none cfg fuel children rp t).2.directory_data ∧
      ((scanDir cancelAt cfg fuel children rp s).1 = true →
        (scanDir none cfg fuel children rp t).1 = true) := by
  intro fuel
  induction fuel with
  | zero =>
    intro children rp s t hst
    rw [scanDir_zero, scanDir_zero]
    refine ⟨hst, ?_⟩
    intro hb
    simp at hb
  | succ fuel ih =>
    intro children rp s t hst
    rw [scanDir_succ, scanDir_succ]
    have hnstop : (poll none t).1 = false := rfl
    simp only [hnstop, Bool.false_eq_true, if_false]
    cases hstop : (poll cancelAt s).1 with
    | true =>
      rw [if_pos rfl]
      have hpd : (poll cancelAt s).2.directory_data = s.directory_data := rfl
      constructor
      · rw [hpd]
        refine hst.trans ?_
        obtain ⟨δd, hdd⟩ := processFolders_mono none cfg _
          (fun ch rp' s' => scanDir_mono none cfg fuel ch rp' s')
          (partitionItems none cfg (sortByName children)
            (poll none t).2).2.1 rp _
        rw [hdd]
        obtain ⟨pre, _, hfd, _⟩ := processFiles_delta none rp
          (partitionItems none cfg (sortByName children) (poll none t).2).1
          (partitionItems none cfg (sortByName children) (poll none t).2).2.2
        rw [hfd]
        have hp2 := (partitionItems_state none cfg (sortByName children)
          (poll none t).2).1
        rw [hp2]
        have hpdn : (poll none t).2.directory_data = t.directory_data := rfl
        rw [hpdn, List.append_assoc]
        exact List.sublist_append_left _ _
      · intro hb
        simp at hb
    | false =>
      simp only [Bool.false_eq_true, if_false]
      have hpdc : (poll cancelAt s).2.directory_data = s.directory_data := rfl
      have hpdn : (poll none t).2.directory_data = t.directory_data := rfl
      have hpartdC := (partitionItems_state cancelAt cfg (sortByName children)
        (poll cancelAt s).2).1
      have hpartdN := (partitionItems_state none cfg (sortByName children)
        (poll none t).2).1
      have hsubC := partitionItems_sublist cancelAt cfg
        (sortByName children) (poll cancelAt s).2
      have hNeq := partitionItems_none cfg (sortByName children)
        (poll none t).2
      have hstp : (partitionItems cancelAt cfg (sortByName children)
          (poll cancelAt s).2).2.2.directory_data.Sublist
          (partitionItems none cfg (sortByName children)
            (poll none t).2).2.2.directory_data := by
        rw [hpartdC, hpartdN, hpdc, hpdn]
        exact hst
      have hfsub : (partitionItems cancelAt cfg (sortByName children)
          (poll cancelAt s).2).1.Sublist
          (partitionItems none cfg (sortByName children)
            (poll none t).2).1 := by
        rw [hNeq]
        exact hsubC.1
      have hdsubl : (partitionItems cancelAt cfg (sortByName children)
          (poll cancelAt s).2).2.1.Sublist
          (partitionItems none cfg (sortByName children)
            (poll none t).2).2.1 := by
        rw [hNeq]
        exact hsubC.2
      obtain ⟨hfd, hfb⟩ := processFiles_sim cancelAt rp hfsub hstp
      obtain ⟨hdd, hdb⟩ := processFolders_sim cancelAt cfg
        (fun ch rp' st => scanDir cancelAt cfg fuel ch rp' st)
        (fun ch rp' st => scanDir none cfg fuel ch rp' st)
        (fun ch rp' s' t' hst' => ih ch rp' s' t' hst')
        (fun ch rp' t' => scanDir_mono none cfg fuel ch rp' t')
        hdsubl rp _ _ hfd
      refine ⟨hdd, ?_⟩
      intro hb
      rw [Bool.or_eq_true] at hb ⊢
      rcases hb with h1 | h1
      · exact Or.inl (hfb h1)
      · exact Or.inr (hdb h1)

/-- A file root appends no records (only a diagnostic). -/
theorem scanRoot_file_data (cancelAt : Option Nat) (cfg : ScanConfig)
    (n sz mt : String) (s : ScanState) :
    (scanRoot cancelAt cfg (.file n sz mt) s).2.directory_data =
      s.directory_data := by
  unfold scanRoot
  dsimp only
  cases hstop : (poll cancelAt s).1 with
  | true =>
    rw [if_pos rfl]
    rfl
  | false =>
    simp only [Bool.false_eq_true, if_false]
    by_cases hz : cfg.maxDepth = 0
    · rw [if_pos hz]
      rfl
    · rw [if_neg hz]
      rfl

theorem scanRoot_sim (cancelAt : Option Nat) (cfg : ScanConfig)
    (root : FSNode) (s t : ScanState)
    (hst : s.directory_data.Sublist t.directory_data) :
    (scanRoot cancelAt cfg root s).2.directory_data.Sublist
      (scanRoot none cfg root t).2.directory_data := by
  cases root with
  | dir name mtime children =>
    exact (scanDir_sim cancelAt cfg cfg.maxDepth children [] s t hst).1
  | file n sz mt =>
    rw [scanRoot_file_data, scanRoot_file_data]
    exact hst

/-! ### Throttled-progress lemmas (claim C6) -/

theorem processFile_data_len (n sz mt : String) (rp : List String)
    (s : ScanState) :
    (processFile n sz mt rp s).directory_data.length =
      s.directory_data.length + 1 := by
  rw [processFile_data]
  simp

/-- The throttled update fires exactly when the post-append entry total
is a multiple of 10. -/
theorem processFile_fires (n sz mt : String) (rp : List String)
    (s : ScanState) (h : (s.directory_data.length + 1) % 10 = 0) :
    s.progress.length < (processFile n sz mt rp s).progress.length := by
  unfold processFile
  dsimp only
  rw [if_pos (by simpa using h)]
  simp

theorem processFile_no_fire (n sz mt : String) (rp : List String)
    (s : ScanState) (h : ¬(s.directory_data.length + 1) % 10 = 0) :
    (processFile n sz mt rp s).progress = s.progress := by
  unfold processFile
  dsimp only
  rw [if_neg (by simpa using h)]

theorem processFiles_progress_len (cancelAt : Option Nat) (rp : List String) :
    ∀ files s, s.progress.length ≤
      (processFiles cancelAt files rp s).2.progress.length := by
  intro files
  induction files with
  | nil =>
    intro s
    exact le_refl _
  | cons t rest ih =>
    obtain ⟨n, sz, mt⟩ := t
    intro s
    rw [processFiles_cons]
    cases hstop : (poll cancelAt s).1 with
    | true =>
      rw [if_pos rfl]
      exact le_refl _
    | false =>
      simp only [Bool.false_eq_true, if_false]
      refine le_trans ?_ (ih (processFile n sz mt rp (poll cancelAt s).2))
      obtain ⟨pr, hpr⟩ := processFile_progress n sz mt rp (poll cancelAt s).2
      have hpp : (poll cancelAt s).2.progress = s.progress := rfl
      rw [hpr, hpp]
      simp

/-- Within one directory's file pass (no folder records intervene), at
most `10 - len % 10` files go by before the throttled update fires. -/
theorem processFiles_ten_fires (rp : List String) :
    ∀ files (s : ScanState),
      10 - s.directory_data.length % 10 ≤ files.length →
      s.progress.length <
        (processFiles none files rp s).2.progress.length := by
  intro files
  induction files with
  | nil =>
    intro s h
    exfalso
    simp at h
    omega
  | cons t rest ih =>
    obtain ⟨n, sz, mt⟩ := t
    intro s h
    rw [processFiles_cons]
    have hnstop : (poll none s).1 = false := rfl
    simp only [hnstop, Bool.false_eq_true, if_false]
    have hpd : (poll none s).2.directory_data = s.directory_data := rfl
    have hpp : (poll none s).2.progress = s.progress := rfl
    by_cases hfire : (s.directory_data.length + 1) % 10 = 0
    · have h1 : s.progress.length <
          (processFile n sz mt rp (poll none s).2).progress.length := by
        have := processFile_fires n sz mt rp (poll none s).2 (by rw [hpd]; exact hfire)
        rw [hpp] at this
        exact this
      exact lt_of_lt_of_le h1 (processFiles_progress_len none rp rest _)
    · have hlen : (processFile n sz mt rp (poll none s).2).directory_data.length
          = s.directory_data.length + 1 := by
        rw [processFile_data_len, hpd]
      have hprog : (processFile n sz mt rp (poll none s).2).progress
          = s.progress := by
        have := processFile_no_fire n sz mt rp (poll none s).2
          (by rw [hpd]; exact hfire)
        rw [hpp] at this
        exact this
      have hgap : 10 - (processFile n sz mt rp
          (poll none s).2).directory_data.length % 10 ≤ rest.length := by
        rw [hlen]
        simp only [List.length_cons] at h
        omega
      have := ih (processFile n sz mt rp (poll none s).2) hgap
      rw [hprog] at this
      exact this

/-! ### Export lemmas (claims C8, C10) -/

theorem os_path_join_empty (b : String) : os_path_join "" b = b := by
  unfold os_path_join
  by_cases hb : startsWithSlash b = true
  · rw [if_pos hb]
  · rw [if_neg hb, if_pos (Or.inl rfl)]
    rfl

/-! ### Filter equivalence and file-set characterization (claim C3) -/

/-- The code's filter equals the amended spec rule: the only divergence
from the claim-literal rule is that an empty allow-set imposes no
restriction. -/
theorem should_include_eq_amended (cfg : ScanConfig) (n : String) :
    should_include_file cfg n = amended_include_file cfg n := by
  unfold should_include_file amended_include_file
  by_cases hd : (!cfg.includeHidden && startsWithDot n) = true
  · rw [if_pos hd, if_pos hd]
  · rw [if_neg hd, if_neg hd]
    dsimp only
    by_cases hstar : pyStrip cfg.fileExtensions = "*"
    · rw [if_neg (by simp [hstar]), if_pos (Or.inl hstar)]
    · by_cases hemp : pyStrip cfg.fileExtensions = ""
      · have hA : buildAllowed (splitOnComma (pyStrip cfg.fileExtensions)) = [] := by
          rw [hemp]
          rfl
        rw [if_neg (by simp [hemp]), if_pos (Or.inr hA)]
      · rw [if_pos ⟨hemp, hstar⟩]
        by_cases hA : buildAllowed (splitOnComma (pyStrip cfg.fileExtensions)) = []
        · have hcond : ¬(buildAllowed (splitOnComma
              (pyStrip cfg.fileExtensions)) ≠ [] ∧
              ¬(buildAllowed (splitOnComma
                (pyStrip cfg.fileExtensions))).contains
                (pyLower (pathSuffix n)) = true ∧
              ¬(buildAllowed (splitOnComma
                (pyStrip cfg.fileExtensions))).contains
                (if startsWithDot (pyLower (pathSuffix n)) = true
                  then dropFirst (pyLower (pathSuffix n))
                  else pyLower (pathSuffix n)) = true) :=
            fun h => h.1 hA
          rw [if_neg hcond, if_pos (Or.inr hA)]
        · have hamp : ¬(pyStrip cfg.fileExtensions = "*" ∨
              buildAllowed (splitOnComma (pyStrip cfg.fileExtensions)) = []) := by
            rintro (h | h)
            · exact hstar h
            · exact hA h
          rw [if_neg hamp]
          by_cases hc1 : (buildAllowed (splitOnComma
              (pyStrip cfg.fileExtensions))).contains
              (pyLower (pathSuffix n)) = true
          · have hcond : ¬(buildAllowed (splitOnComma
                (pyStrip cfg.fileExtensions)) ≠ [] ∧
                ¬(buildAllowed (splitOnComma
                  (pyStrip cfg.fileExtensions))).contains
                  (pyLower (pathSuffix n)) = true ∧
                ¬(buildAllowed (splitOnComma
                  (pyStrip cfg.fileExtensions))).contains
                  (if startsWithDot (pyLower (pathSuffix n)) = true
                    then dropFirst (pyLower (pathSuffix n))
                    else pyLower (pathSuffix n)) = true) :=
              fun h => h.2.1 hc1
            rw [if_neg hcond, hc1]
            simp
          · by_cases hc2 : (buildAllowed (splitOnComma
                (pyStrip cfg.fileExtensions))).contains
                (if startsWithDot (pyLower (pathSuffix n)) = true
                  then dropFirst (pyLower (pathSuffix n))
                  else pyLower (pathSuffix n)) = true
            · have hcond : ¬(buildAllowed (splitOnComma
                  (pyStrip cfg.fileExtensions)) ≠ [] ∧
                  ¬(buildAllowed (splitOnComma
                    (pyStrip cfg.fileExtensions))).contains
                    (pyLower (pathSuffix n)) = true ∧
                  ¬(buildAllowed (splitOnComma
                    (pyStrip cfg.fileExtensions))).contains
                    (if startsWithDot (pyLower (pathSuffix n)) = true
                      then dropFirst (pyLower (pathSuffix n))
                      else pyLower (pathSuffix n)) = true) :=
                fun h => h.2.2 hc2
              rw [if_neg hcond, hc2]
              simp
            · rw [if_pos ⟨hA, hc1, hc2⟩,
                Bool.eq_false_iff.mpr hc1, Bool.eq_false_iff.mpr hc2]
              rfl

theorem filePaths_append (l l' : List Entry) :
    filePaths (l ++ l') = filePaths l ++ filePaths l' := by
  simp [filePaths, List.filterMap_append]

theorem filePaths_dir_append (l : List Entry) (p : List String)
    (n mt : String) :
    filePaths (l ++ [⟨p, n, .dir, "-", mt⟩]) = filePaths l := by
  rw [filePaths_append]
  simp [filePaths]

theorem filePaths_map_mkFileEntry (rp : List String)
    (files : List (String × String × String)) :
    filePaths (files.map (mkFileEntry rp)) =
      files.map (fun t => rp ++ [t.1]) := by
  induction files with
  | nil => rfl
  | cons t rest ih =>
    simp [filePaths, mkFileEntry] at ih ⊢
    exact ih

/-- The spec-side per-listing file selection matches the code's,
through the amended rule. -/
theorem specFilesHere_eq_pyFiles (cfg : ScanConfig) (rp : List String) :
    ∀ l, specFilesHere cfg rp l =
      (pyFiles cfg l).map (fun t => rp ++ [t.1]) := by
  intro l
  induction l with
  | nil => rfl
  | cons item rest ih =>
    cases item with
    | file name size mtime =>
      unfold specFilesHere
      rw [pyFiles_cons_file]
      by_cases hh : should_include_file cfg name = true
      · rw [if_pos (by rw [← should_include_eq_amended]; exact hh), if_pos hh]
        simp [ih]
      · rw [if_neg (by rw [← should_include_eq_amended]; exact hh), if_neg hh]
        exact ih
    | dir name mtime children =>
      unfold specFilesHere
      rw [pyFiles_cons_dir]
      exact ih

theorem subsConcat_nil
    (recFn : List FSNode → List String → List (List String))
    (rp : List String) : subsConcat recFn rp [] = [] := rfl

theorem subsConcat_cons
    (recFn : List FSNode → List String → List (List String))
    (rp : List String) (name mt : String) (ch : List FSNode)
    (rest : List (String × String × List FSNode)) :
    subsConcat recFn rp ((name, mt, ch) :: rest) =
      recFn ch (rp ++ [name]) ++ subsConcat recFn rp rest := rfl

/-- File-path characterization of the folder loop of an uncancelled
scan, abstracted over the recursive call. -/
theorem processFolders_none_filePaths (cfg : ScanConfig)
    (recFn : List FSNode → List String → ScanState → Bool × ScanState)
    (specRec : List FSNode → List String → List (List String))
    (hrec : ∀ ch rp s, filePaths (recFn ch rp s).2.directory_data =
      filePaths s.directory_data ++ specRec ch rp) :
    ∀ folders rp s,
      filePaths (processFolders none cfg recFn folders rp s).2.directory_data =
        filePaths s.directory_data ++ subsConcat specRec rp folders := by
  intro folders
  induction folders with
  | nil =>
    intro rp s
    simp [processFolders, subsConcat]
  | cons t rest ih =>
    obtain ⟨name, mt, ch⟩ := t
    intro rp s
    rw [processFolders_cons]
    have hnstop : (poll none s).1 = false := rfl
    simp only [hnstop, Bool.false_eq_true, if_false]
    have hpd : filePaths (poll none s).2.directory_data =
      filePaths s.directory_data := rfl
    by_cases hkeep : ((recFn ch (rp ++ [name]) (poll none s).2).1 ||
        cfg.showEmptyFolders) = true
    · rw [if_pos hkeep]
      dsimp only
      rw [ih rp _]
      dsimp only
      rw [filePaths_dir_append, hrec, hpd, subsConcat_cons]
      simp [List.append_assoc]
    · rw [if_neg hkeep]
      rw [ih rp _, hrec, hpd, subsConcat_cons]
      simp [List.append_assoc]

/-- The File records of an uncancelled walk are exactly the spec-side
characterization. -/
theorem scanDir_none_filePaths (cfg : ScanConfig) :
    ∀ fuel children rp s,
      filePaths (scanDir none cfg fuel children rp s).2.directory_data =
        filePaths s.directory_data ++ specFiles cfg fuel children rp := by
  intro fuel
  induction fuel with
  | zero =>
    intro children rp s
    rw [scanDir_zero]
    simp [specFiles]
    rfl
  | succ fuel ih =>
    intro children rp s
    rw [scanDir_succ]
    have hnstop : (poll none s).1 = false := rfl
    simp only [hnstop, Bool.false_eq_true, if_false]
    rw [partitionItems_none]
    dsimp only
    rw [processFolders_none_filePaths cfg _ (specFiles cfg fuel)
      (fun ch rp' s' => ih ch rp' s')]
    rw [(processFiles_none_char rp (pyFiles cfg (sortByName children)) _).2]
    rw [filePaths_append, filePaths_map_mkFileEntry]
    dsimp only
    unfold specFiles specFilesUnder
    rw [specFilesHere_eq_pyFiles]
    simp [List.append_assoc]
    rfl

/-- Claim C3's result-level characterization, from the scan root. -/
theorem scan_files_spec (cfg : ScanConfig) (root : FSNode) :
    filePaths (scan_directory none cfg root).data = specFilesRoot cfg root := by
  cases root with
  | dir name mtime children =>
    have h := scanDir_none_filePaths cfg cfg.maxDepth children []
      ⟨[], [], [], [], [], 0⟩
    have hd : (scan_directory none cfg (.dir name mtime children)).data =
        (scanDir none cfg cfg.maxDepth children []
          ⟨[], [], [], [], [], 0⟩).2.directory_data := rfl
    rw [hd, h]
    rfl
  | file n sz mt =>
    have hd : (scan_directory none cfg (.file n sz mt)).data =
        (scanRoot none cfg (.file n sz mt) ⟨[], [], [], [], [], 0⟩).2.directory_data := rfl
    rw [hd, scanRoot_file_data]
    rfl

/-! ## Claim theorems -/

/-- Claim C2: for every scan configured with `maxDepth = d`
(`1 ≤ d ≤ 50`), no entry in the returned result list has a relative
path with more than `d` segments — the depth guard
(`current_depth >= max_depth`, i.e. `fuel = 0`) returns "no qualifying
content" before anything deeper is recorded.  Holds for cancelled and
uncancelled runs alike. -/
theorem claim_C2_theorem (cfg : ScanConfig) (root : FSNode)
    (cancelAt : Option Nat) (h1 : 1 ≤ cfg.maxDepth)
    (h50 : cfg.maxDepth ≤ 50) :
    ∀ e ∈ (scan_directory cancelAt cfg root).data,
      e.path.length ≤ cfg.maxDepth := by
  intro e he
  obtain ⟨rest, hp, _, hlen, _, _⟩ :=
    scan_directory_entriesOK cancelAt cfg root e he
  rw [hp]
  simpa using hlen

/-- Witness for C2 at spec example 1 (`maxDepth = 2` over `demoTree`). -/
theorem claim_C2_witness :
    1 ≤ cfgDepth2.maxDepth ∧ cfgDepth2.maxDepth ≤ 50 ∧
    (⟨["sub", "b.txt"], "b.txt", .file, "2 B", "t3"⟩ : Entry).path.length ≤
      cfgDepth2.maxDepth :=
  ⟨by decide, by decide,
    claim_C2_theorem cfgDepth2 demoTree none (by decide) (by decide)
      ⟨["sub", "b.txt"], "b.txt", .file, "2 B", "t3"⟩ (by decide)⟩

/-- Claim C7: at the end of every scan — completed or cancelled — the
`"文件"` statistics counter equals the number of File-kind records in
the result, and the extension buckets (including `"无扩展名"`) sum to
that counter. -/
theorem claim_C7_theorem (cfg : ScanConfig) (root : FSNode)
    (cancelAt : Option Nat) :
    statsGet (scan_directory cancelAt cfg root).stats "文件" =
      countFiles (scan_directory cancelAt cfg root).data ∧
    extSum (scan_directory cancelAt cfg root).stats =
      statsGet (scan_directory cancelAt cfg root).stats "文件" := by
  have h0 : statsInv ⟨[], [], [], [], [], 0⟩ := ⟨rfl, rfl⟩
  exact statsInv_scanRoot cancelAt cfg root ⟨[], [], [], [], [], 0⟩ h0

/-- Claim C9: with `includeHidden = false`, no entry of the result has
any path segment that starts with a dot — hidden directories are
skipped before recursion, so the rule holds transitively. -/
theorem claim_C9_theorem (cfg : ScanConfig) (root : FSNode)
    (cancelAt : Option Nat) (h : cfg.includeHidden = false) :
    ∀ e ∈ (scan_directory cancelAt cfg root).data, ∀ seg ∈ e.path,
      startsWithDot seg = false := by
  intro e he seg hseg
  obtain ⟨rest, hp, _, _, hhid, _⟩ :=
    scan_directory_entriesOK cancelAt cfg root e he
  rw [hp] at hseg
  simp at hseg
  exact hhid h seg hseg

/-- Witness for C9: in a tree with a populated hidden directory and a
visible file, the recorded file's segment is not hidden. -/
theorem claim_C9_witness :
    cfgPlain.includeHidden = false ∧ startsWithDot "a.txt" = false :=
  ⟨rfl, claim_C9_theorem cfgPlain hiddenMixTree none rfl
    ⟨["a.txt"], "a.txt", .file, "1 B", "t3"⟩ (by decide) "a.txt" (by decide)⟩

/-- Claim C8: `export_to_json` serializes the undefined name
`export_data`: on any non-empty result set the dump step raises
`NameError`, the surrounding handler reports failure, and the computed
`files_only_data` list is never written. -/
theorem claim_C8_theorem (data : List Entry) (h : data ≠ []) :
    export_to_json data = ExportOutcome.failed "NameError" ∧
    ∀ recs, export_to_json data ≠ ExportOutcome.written recs := by
  have hne : data.isEmpty = false := by
    cases data with
    | nil => exact absurd rfl h
    | cons a l => rfl
  have hmain : export_to_json data = ExportOutcome.failed "NameError" := by
    unfold export_to_json
    rw [if_neg (by simp [hne])]
    rfl
  refine ⟨hmain, fun recs hw => ?_⟩
  rw [hmain] at hw
  exact ExportOutcome.noConfusion hw

/-- Witness for C8 on a one-record result set. -/
theorem claim_C8_witness :
    export_to_json [sampleEntry] = ExportOutcome.failed "NameError" :=
  (claim_C8_theorem [sampleEntry] (by decide)).1

/-- Claim C10: the `'完整路径'` field of every record prepared by the
CSV/JSON exports equals the record's root-relative `'路径'`, because
`getattr(self, 'current_directory', '')` always yields the default
empty string (the attribute is never assigned) and joining `''` with a
relative path returns it unchanged. -/
theorem claim_C10_theorem (data : List Entry) :
    getattr_current_directory = "" ∧
    (∀ r ∈ files_only_data getattr_current_directory data,
      r.fullPath = r.path) ∧
    (∀ recs, export_to_csv data = ExportOutcome.written recs →
      ∀ r ∈ recs, r.fullPath = r.path) := by
  have hrec : ∀ r ∈ files_only_data getattr_current_directory data,
      r.fullPath = r.path := by
    intro r hr
    rw [files_only_data] at hr
    rw [List.mem_map] at hr
    obtain ⟨e, _, rfl⟩ := hr
    show os_path_join getattr_current_directory (pathToString e.path) =
      pathToString e.path
    exact os_path_join_empty _
  refine ⟨rfl, hrec, ?_⟩
  intro recs hw r hr
  unfold export_to_csv at hw
  by_cases hemp : data.isEmpty = true
  · rw [if_pos hemp] at hw
    exact ExportOutcome.noConfusion hw
  · rw [if_neg hemp] at hw
    have : files_only_data getattr_current_directory data = recs :=
      ExportOutcome.written.inj hw
    rw [← this] at hr
    exact hrec r hr

/-- Witness for C10 on a one-record result set. -/
theorem claim_C10_witness :
    (exportRecord getattr_current_directory sampleEntry).fullPath =
      (exportRecord getattr_current_directory sampleEntry).path :=
  (claim_C10_theorem [sampleEntry]).2.1
    (exportRecord getattr_current_directory sampleEntry) (by decide)

/-- Claim C1 (counterexample): the claim's "iff" fails as stated — the
hidden empty directory `.h` of `hiddenTree` has zero qualifying
descendants and `show_empty_folders` is set, yet it never appears in
the result, because the traversal skips hidden directories before the
pruning decision is ever made. -/
theorem claim_C1_counterexample :
    cfgShowEmpty.showEmptyFolders = true ∧
    ¬∃ e ∈ (scan_directory none cfgShowEmpty hiddenTree).data,
      e.kind = EntryKind.dir ∧ e.path = [".h"] := by
  constructor
  · rfl
  · intro ⟨e, he, _⟩
    have hd : (scan_directory none cfgShowEmpty hiddenTree).data = [] := by
      rfl
    rw [hd] at he
    simp at he

/-- Claim C1 (amended): the post-order pruning decision, restricted to
directories the traversal actually reaches.  (a) With
`show_empty_folders` unset, every Directory record in the result has a
File record strictly beneath it in the result — so a directory with
zero qualifying descendants never appears; (b) with
`show_empty_folders` set, every directory the traversal visits
(non-hidden under the configuration, within the depth budget) appears.
Directories the traversal never reaches (hidden when hidden entries
are excluded, or deeper than `maxDepth`) never appear either way. -/
theorem claim_C1_theorem (cfg : ScanConfig) (root : FSNode)
    (cancelAt : Option Nat) :
    (cfg.showEmptyFolders = false →
      ∀ e ∈ (scan_directory cancelAt cfg root).data,
        e.kind = EntryKind.dir →
        ∃ e' ∈ (scan_directory cancelAt cfg root).data,
          e'.kind = EntryKind.file ∧
          ∃ r, e'.path = e.path ++ r ∧ r ≠ []) ∧
    (cfg.showEmptyFolders = true →
      ∀ p ∈ visitedDirsRoot cfg root,
        ∃ e ∈ (scan_directory none cfg root).data,
          e.kind = EntryKind.dir ∧ e.path = p) := by
  constructor
  · intro hs e he hke
    obtain ⟨rest, _, _, _, _, hdir⟩ :=
      scan_directory_entriesOK cancelAt cfg root e he
    exact hdir hs hke
  · intro hs p hp
    cases root with
    | dir name mtime children =>
      have hd : (scan_directory none cfg (.dir name mtime children)).data =
          (scanDir none cfg cfg.maxDepth children []
            ⟨[], [], [], [], [], 0⟩).2.directory_data := rfl
      rw [hd]
      exact visitedDirs_appear cfg hs cfg.maxDepth children []
        ⟨[], [], [], [], [], 0⟩ p hp
    | file n sz mt =>
      simp [visitedDirsRoot] at hp

/-- Witness for C1 (amended), on `keptTree`: (a) the kept directory
`d` has the file `d/a.txt` beneath it; (b) with `show_empty_folders`
set, the visited directory `d` appears. -/
theorem claim_C1_witness :
    (∃ e' ∈ (scan_directory none cfgPlain keptTree).data,
      e'.kind = EntryKind.file ∧
      ∃ r, e'.path = ["d"] ++ r ∧ r ≠ []) ∧
    (∃ e ∈ (scan_directory none cfgShowEmpty keptTree).data,
      e.kind = EntryKind.dir ∧ e.path = ["d"]) :=
  ⟨(claim_C1_theorem cfgPlain keptTree none).1 rfl
      ⟨["d"], "d", .dir, "-", "t1"⟩ (by decide) rfl,
    (claim_C1_theorem cfgShowEmpty keptTree none).2 rfl ["d"] (by decide)⟩

/-- Claim C3 (counterexample): with the filter string `","` — not the
wildcard — the allow-set built from the configured tokens is empty, so
the claim's rule rejects every file; the code instead skips the
extension check when the allow-set is empty, and `a.txt` is included
in the scan result. -/
theorem claim_C3_counterexample :
    should_include_file cfgComma "a.txt" = true ∧
    claimRule_include_file cfgComma "a.txt" = false ∧
    (∃ e ∈ (scan_directory none cfgComma commaTree).data,
      e.kind = EntryKind.file ∧ e.path = ["a.txt"]) := by
  refine ⟨by decide, by decide, ?_⟩
  decide

/-- Claim C3 (amended): a visited file appears in the result iff it
passes the hidden-name rule and the extension rule, where a filter
whose allow-set has no tokens imposes no extension restriction: the
code's filter provably equals that amended rule, and the File records
of an uncancelled scan are exactly the spec-side characterization
built from it (files of each sorted listing first, then each
non-hidden subdirectory's contribution); directories are never
extension-filtered. -/
theorem claim_C3_theorem (cfg : ScanConfig) (root : FSNode) :
    (∀ n, should_include_file cfg n = amended_include_file cfg n) ∧
    filePaths (scan_directory none cfg root).data = specFilesRoot cfg root :=
  ⟨fun n => should_include_eq_amended cfg n, scan_files_spec cfg root⟩

/-- Claim C5: cancelling at any poll index yields a result list that
is a sublist (hence a subset) of the uncancelled scan's result over
the same tree and configuration, and whenever the flag lands within
the run's polls the completion report carries `wasCancelled = true`.
The flag is polled at the top of every walker call, per listed item,
and before every file and folder. -/
theorem claim_C5_theorem (cfg : ScanConfig) (root : FSNode) (k : Nat) :
    (scan_directory (some k) cfg root).data.Sublist
      (scan_directory none cfg root).data ∧
    (k ≤ (scan_directory (some k) cfg root).polls →
      (scan_directory (some k) cfg root).wasCancelled = true) := by
  constructor
  · exact scanRoot_sim (some k) cfg root ⟨[], [], [], [], [], 0⟩
      ⟨[], [], [], [], [], 0⟩ (List.Sublist.refl _)
  · intro h
    show flagAt (some k)
      (scanRoot (some k) cfg root ⟨[], [], [], [], [], 0⟩).2.polls = true
    simp only [flagAt]
    exact decide_eq_true h

/-- Witness for C5: cancelling `demoTree`'s scan at poll 5 yields a
sublist of the full result and reports the cancellation. -/
theorem claim_C5_witness :
    (scan_directory (some 5) cfgPlain demoTree).data.Sublist
      (scan_directory none cfgPlain demoTree).data ∧
    (scan_directory (some 5) cfgPlain demoTree).wasCancelled = true :=
  ⟨(claim_C5_theorem cfgPlain demoTree 5).1,
    (claim_C5_theorem cfgPlain demoTree 5).2 (by decide)⟩

/-- Claim C4 (counterexample): a root path that exists but is a file
is not rejected before traversal — `start_scan`'s pre-flight check
only tests existence, so the scan thread runs, `os.listdir` fails
inside the walker, the error is absorbed as a diagnostic, and the scan
completes normally (not as an invalid-root failure) with zero
entries. -/
theorem claim_C4_counterexample :
    start_scan (some (FSNode.file "f.txt" "1 B" "t")) cfgPlain none ≠
      StartOutcome.rootMissing ∧
    start_scan (some (FSNode.file "f.txt" "1 B" "t")) cfgPlain none =
      StartOutcome.started
        { data := [], stats := [], progress := [], currentFile := [],
          logs := ["扫描目录时出错"], polls := 1, wasCancelled := false,
          finalReport := some (0, 0) } := by
  constructor
  · decide
  · decide

/-- Claim C4 (amended): a missing root is rejected immediately, before
any traversal; a root that exists but is not a directory is not
rejected up front — traversal begins, the listing failure is logged as
an error diagnostic, and the scan completes uncancelled with zero
entries and an empty-count completion report. -/
theorem claim_C4_theorem (cfg : ScanConfig) (n sz mt : String)
    (h : 1 ≤ cfg.maxDepth) :
    start_scan none cfg none = StartOutcome.rootMissing ∧
    start_scan (some (FSNode.file n sz mt)) cfg none =
      StartOutcome.started
        { data := [], stats := [], progress := [], currentFile := [],
          logs := ["扫描目录时出错"], polls := 1, wasCancelled := false,
          finalReport := some (0, 0) } := by
  refine ⟨rfl, ?_⟩
  unfold start_scan scan_directory scanRoot
  dsimp only
  rw [if_neg (show ¬cfg.maxDepth = 0 by omega)]
  rfl

/-- Witness for C4 (amended) at the default configuration. -/
theorem claim_C4_witness :
    start_scan none cfgPlain none = StartOutcome.rootMissing ∧
    start_scan (some (FSNode.file "f" "1 B" "t")) cfgPlain none =
      StartOutcome.started
        { data := [], stats := [], progress := [], currentFile := [],
          logs := ["扫描目录时出错"], polls := 1, wasCancelled := false,
          finalReport := some (0, 0) } :=
  claim_C4_theorem cfgPlain "f" "1 B" "t" (by decide)

/-- Claim C6 (counterexample): the throttle tests the total entry
count (files plus folders), not a per-file counter.  Scanning
`throttleTree` processes 10 files, but every file append lands on an
odd total (each is followed by its parent folder's record), so not one
throttled progress update fires — refuting "at minimum once for every
10 processed files". -/
theorem claim_C6_counterexample :
    countFiles (scan_directory none cfgPlain throttleTree).data = 10 ∧
    (scan_directory none cfgPlain throttleTree).progress = [] := by
  constructor
  · decide
  · decide

/-- Claim C6 (amended): (i) within a single directory's file pass —
where no folder records intervene — at least one throttled update
fires per 10 processed files (the counter is the total entry count,
checked after each file append); across directory boundaries folder
appends can shift the count so the guarantee fails (see the
counterexample).  (ii) On every uncancelled completion the final
report carrying the file/folder counts fires, regardless of the
throttle counter. -/
theorem claim_C6_theorem :
    (∀ (rp : List String) (files : List (String × String × String))
      (s : ScanState), 10 ≤ files.length →
      s.progress.length < (processFiles none files rp s).2.progress.length) ∧
    (∀ (cfg : ScanConfig) (root : FSNode),
      (scan_directory none cfg root).wasCancelled = false ∧
      (scan_directory none cfg root).finalReport =
        some (countFiles (scan_directory none cfg root).data,
          countFolders (scan_directory none cfg root).data)) := by
  constructor
  · intro rp files s h
    apply processFiles_ten_fires
    omega
  · intro cfg root
    exact ⟨rfl, rfl⟩

/-- Witness for C6 (amended): ten files through one file pass from the
fresh state fire at least one throttled update. -/
theorem claim_C6_witness :
    ((⟨[], [], [], [], [], 0⟩ : ScanState)).progress.length <
      (processFiles none tenFiles []
        ⟨[], [], [], [], [], 0⟩).2.progress.length :=
  claim_C6_theorem.1 [] tenFiles ⟨[], [], [], [], [], 0⟩ (by decide)

end DirScan
